import Mathlib

/-!
Shallow embedding of the battle-simulation core of the `spcc` repository.

Conventions used throughout this development:
* Rust `f32`/`f64` quantities and `std::time::Duration` values are modelled
  as rationals (`ℚ`); all the verified properties are order/clamping
  properties for which exact arithmetic is the intended reading.
* Bevy ECS worlds are modelled as explicit structures: an entity list fixing
  the iteration order plus per-component maps `Entity → Option _`.
* Fallible operations return `Option`/`Except`; loops of the source are
  modelled by structural recursion or explicit fuel.
-/

namespace Spcc

/-- Entities are opaque identifiers; bevy's `Entity` ordering is modelled by
the order on `ℕ`. -/
abbrev Entity := ℕ

/-- Durations (seconds) are modelled as exact rationals. -/
abbrev Duration := ℚ

/-- Model of Rust `Duration::MAX` (`u64::MAX` seconds plus `10^9 - 1`
nanoseconds), used by `AttackCycle::new` and by the zero-Aspd branch of
`tick_attack_cycle_timers`. -/
def durMax : Duration := (2 ^ 64 - 1 : ℚ) + (10 ^ 9 - 1) / 10 ^ 9

/-! ### `battle/damage.rs`: `Health` -/

/-- Embedding of `Health` (src/battle/damage.rs): current hp plus the
tracked max hp used to detect external `MaxHp` stat changes. -/
structure Health where
  hp : ℚ
  max_hp : ℚ
  deriving DecidableEq

/-- Embedding of `Health::new`: full hp at construction.  The Rust source
asserts `max_hp > 0`; that precondition appears as a hypothesis in the
theorems below. -/
def Health.new (maxHp : ℚ) : Health :=
  { hp := maxHp, max_hp := maxHp }

/-- Embedding of `Health::get`. -/
def Health.get (h : Health) : ℚ := h.hp

/-- Embedding of `Health::set`: `self.hp = hp.min(self.max_hp)` — clamps
from above only. -/
def Health.set (h : Health) (hp : ℚ) : Health :=
  { h with hp := min hp h.max_hp }

/-- Embedding of the body of `detect_maxhp_changes` for one entity
(src/battle/damage.rs): `hp' = hp * new_max / old_max` followed by updating
the tracked max. -/
def Health.rescaleMaxHp (h : Health) (newMax : ℚ) : Health :=
  { hp := h.hp * newMax / h.max_hp, max_hp := newMax }

/-- The health mutations the simulation performs on a `Health` value:
`Health::set` and the proportional rescale of `detect_maxhp_changes`. -/
inductive HealthOp where
  | set (v : ℚ)
  | rescale (m : ℚ)
  deriving DecidableEq

/-- Applies one health mutation. -/
def Health.applyOp (h : Health) : HealthOp → Health
  | .set v => h.set v
  | .rescale m => h.rescaleMaxHp m

/-- Rescale arguments come from the computed `MaxHp` stat; its domain in
`stats/stat.rs` is clamped to be non-negative, and the interesting runs keep
it positive. -/
def HealthOp.posRescale : HealthOp → Prop
  | .set _ => True
  | .rescale m => 0 < m

/-! ### `battle/damage.rs`: `Dead` and `send_death_event` -/

/-- World fragment for the death pipeline: each entity's `Health`
component and whether the `Dead` marker is present.  `ents` lists the live
query results in iteration order. -/
structure DWorld where
  ents : List Entity
  health : Entity → Health
  dead : Entity → Bool

/-- Embedding of `send_death_event`: every queried entity without `Dead`
whose hp is `≤ 0` gets the `Dead` marker inserted and one `DeathEvent`
emitted.  Returns the updated world and the emitted events. -/
def sendDeathEvent (w : DWorld) : DWorld × List Entity :=
  ({ w with
      dead := fun e =>
        w.dead e || (decide (e ∈ w.ents) && !w.dead e && decide ((w.health e).get ≤ 0)) },
   w.ents.filter (fun e => !w.dead e && decide ((w.health e).get ≤ 0)))

/-- Simulation operations that touch `Health` or `Dead`: the `Dead` marker
is only ever inserted (by `send_death_event`); no system removes it. -/
inductive SimOp where
  | setHp (e : Entity) (v : ℚ)
  | rescaleMaxHp (e : Entity) (m : ℚ)
  | sendDeath

/-- Applies one simulation operation to the death-pipeline world. -/
def DWorld.applyOp (w : DWorld) : SimOp → DWorld
  | .setHp e v => { w with health := fun x => if x = e then (w.health e).set v else w.health x }
  | .rescaleMaxHp e m =>
      { w with health := fun x => if x = e then (w.health e).rescaleMaxHp m else w.health x }
  | .sendDeath => (sendDeathEvent w).1

/-- Applies a sequence of simulation operations. -/
def DWorld.applyOps (w : DWorld) (ops : List SimOp) : DWorld :=
  ops.foldl DWorld.applyOp w

/-! ### `battle/skill.rs`: `Skill` -/

/-- Embedding of `OverflowBehavior`; `Charge` carries a `NonZeroU32`. -/
inductive OverflowBehavior where
  | capped
  | charge (charges : ℕ+)
  deriving DecidableEq

/-- Embedding of `Skill` (src/battle/skill.rs). -/
structure Skill where
  sp : ℚ
  max_sp : ℚ
  sp_lockout : Bool
  overflow : OverflowBehavior
  deriving DecidableEq

/-- Embedding of `Skill::new`; the Rust source asserts `max_sp > 0`. -/
def Skill.new (maxSp : ℚ) (overflow : OverflowBehavior) : Skill :=
  { sp := 0, max_sp := maxSp, sp_lockout := false, overflow }

/-- The cap used by `Skill::mutate`: `max_sp` under `Capped`, and
`max_sp * charges` under `Charge(charges)`. -/
def Skill.cap (s : Skill) : ℚ :=
  match s.overflow with
  | .capped => s.max_sp
  | .charge n => s.max_sp * (n : ℕ)

/-- Embedding of `Skill::mutate`: a no-op during sp lockout, otherwise
`sp = f(sp).clamp(0.0, cap)`. -/
def Skill.mutate (s : Skill) (f : ℚ → ℚ) : Skill :=
  if s.sp_lockout then s
  else { s with sp := min (max (f s.sp) 0) s.cap }

/-! ### Bevy `Timer` (repeating mode, never paused), as used by both
`AttackCycle` implementations -/

/-- Model of `bevy::time::Timer` in `TimerMode::Repeating`: the stopwatch
elapsed, the configured duration, and the completion count of the last
`tick` call. -/
structure Timer where
  duration : Duration
  elapsed : Duration
  timesFinishedThisTick : ℕ
  deriving DecidableEq

/-- Embedding of `Timer::new` (elapsed and completion count start at 0). -/
def Timer.new (d : Duration) : Timer :=
  { duration := d, elapsed := 0, timesFinishedThisTick := 0 }

/-- Embedding of `Timer::set_elapsed`. -/
def Timer.setElapsed (t : Timer) (e : Duration) : Timer :=
  { t with elapsed := e }

/-- Embedding of `Timer::tick` for an unpaused repeating timer: advance the
stopwatch; on completion record `⌊elapsed/duration⌋` completions and wrap
the elapsed time by that many whole periods.  (The source divides
nanosecond counts; with exact rationals this is the floor below.  A zero
`duration` would panic in Rust and never occurs in the verified runs.) -/
def Timer.tick (t : Timer) (delta : Duration) : Timer :=
  let e := t.elapsed + delta
  if t.duration ≤ e then
    let k := (⌊e / t.duration⌋).toNat
    { t with elapsed := e - t.duration * k, timesFinishedThisTick := k }
  else
    { t with elapsed := e, timesFinishedThisTick := 0 }

/-- Embedding of `Timer::just_finished`. -/
def Timer.justFinished (t : Timer) : Bool :=
  t.timesFinishedThisTick ≠ 0

/-! ### `battle/damage.rs`: `AttackCycle` (the variant with `last_elapsed`
and `attacks_this_tick`) -/

/-- Embedding of `AttackCycle` from src/battle/damage.rs. -/
structure AttackCycleD where
  timer : Timer
  standby : Bool
  last_elapsed : Duration
  scaled_frontswing : Duration
  scaled_backswing : Duration
  frontswing : Duration
  backswing : Duration
  deriving DecidableEq

/-- Embedding of `AttackCycle::new` (damage.rs): repeating timer of
`Duration::MAX`, swings unscaled. -/
def AttackCycleD.new (fs bs : Duration) : AttackCycleD :=
  { timer := Timer.new durMax, standby := false, last_elapsed := 0,
    scaled_frontswing := fs, scaled_backswing := bs,
    frontswing := fs, backswing := bs }

/-- Embedding of `AttackCycle::interval` (damage.rs). -/
def AttackCycleD.interval (c : AttackCycleD) : Duration :=
  c.timer.duration

/-- Embedding of `AttackCycle::scale_swing_interval` (damage.rs): when the
raw swings do not fit the interval, compress both proportionally. -/
def AttackCycleD.scaleSwingInterval (c : AttackCycleD) : AttackCycleD :=
  let total := c.frontswing + c.backswing
  if total = 0 then c
  else if total < c.interval then
    { c with scaled_frontswing := c.frontswing, scaled_backswing := c.backswing }
  else
    { c with scaled_frontswing := c.interval * (c.frontswing / total),
             scaled_backswing := c.interval * (c.backswing / total) }

/-- Embedding of `AttackCycle::set_interval` (damage.rs): rescale elapsed
time by `new/old` and refit the swings.  (No special case for a zero
current duration, unlike the auto_attack.rs variant.) -/
def AttackCycleD.setInterval (c : AttackCycleD) (i : Duration) : AttackCycleD :=
  if c.timer.duration = i then c
  else
    let r := i / c.timer.duration
    let e := c.timer.elapsed * r
    ({ c with timer := (Timer.new i).setElapsed e } : AttackCycleD).scaleSwingInterval

/-- Embedding of `AttackCycle::set_standby` (damage.rs). -/
def AttackCycleD.setStandby (c : AttackCycleD) (standby : Bool) : AttackCycleD :=
  { c with standby }

/-- Embedding of `AttackCycle::tick` (damage.rs): frozen while on standby
at zero elapsed; otherwise record `last_elapsed`, tick the timer, and when
on standby clamp a just-finished cycle back to zero. -/
def AttackCycleD.tick (c : AttackCycleD) (delta : Duration) : AttackCycleD :=
  if c.standby && decide (c.timer.elapsed = 0) then c
  else
    let c' := { c with last_elapsed := c.timer.elapsed, timer := c.timer.tick delta }
    if c'.standby && c'.timer.justFinished then
      { c' with timer := c'.timer.setElapsed 0 }
    else c'

/-- Embedding of `AttackCycle::times_finished_this_tick` (damage.rs). -/
def AttackCycleD.timesFinishedThisTick (c : AttackCycleD) : ℕ :=
  c.timer.timesFinishedThisTick

/-- Embedding of `AttackCycle::attacks_this_tick` (damage.rs):
`times_finished_this_tick().saturating_sub(1)` plus one when the scaled
frontswing boundary was crossed within the current cycle this tick. -/
def AttackCycleD.attacksThisTick (c : AttackCycleD) : ℕ :=
  let attackFinished : Bool :=
    decide (c.last_elapsed < c.scaled_frontswing) &&
    decide (c.scaled_frontswing ≤ c.timer.elapsed)
  c.timesFinishedThisTick - 1 + (if attackFinished then 1 else 0)

/-! ### `battle/auto_attack.rs`: `AttackCycle` (the variant with
`in_frontswing`/`in_backswing`) -/

/-- Embedding of `AttackCycle` from src/battle/auto_attack.rs (no
`last_elapsed` field). -/
structure AttackCycleA where
  timer : Timer
  standby : Bool
  scaled_frontswing : Duration
  scaled_backswing : Duration
  frontswing : Duration
  backswing : Duration
  deriving DecidableEq

/-- Embedding of `AttackCycle::new` (auto_attack.rs). -/
def AttackCycleA.new (fs bs : Duration) : AttackCycleA :=
  { timer := Timer.new durMax, standby := false,
    scaled_frontswing := fs, scaled_backswing := bs,
    frontswing := fs, backswing := bs }

/-- Embedding of `AttackCycle::interval` (auto_attack.rs). -/
def AttackCycleA.interval (c : AttackCycleA) : Duration :=
  c.timer.duration

/-- Embedding of `AttackCycle::scale_swing_interval` (auto_attack.rs);
textually identical to the damage.rs variant. -/
def AttackCycleA.scaleSwingInterval (c : AttackCycleA) : AttackCycleA :=
  let total := c.frontswing + c.backswing
  if total = 0 then c
  else if total < c.interval then
    { c with scaled_frontswing := c.frontswing, scaled_backswing := c.backswing }
  else
    { c with scaled_frontswing := c.interval * (c.frontswing / total),
             scaled_backswing := c.interval * (c.backswing / total) }

/-- Embedding of `AttackCycle::set_interval` (auto_attack.rs): unlike the
damage.rs variant, a zero current duration is replaced by a fresh timer
with `elapsed = interval` and no swing refit. -/
def AttackCycleA.setInterval (c : AttackCycleA) (i : Duration) : AttackCycleA :=
  if c.timer.duration = i then c
  else if c.timer.duration = 0 then
    { c with timer := (Timer.new i).setElapsed i }
  else
    let r := i / c.timer.duration
    let e := c.timer.elapsed * r
    ({ c with timer := (Timer.new i).setElapsed e } : AttackCycleA).scaleSwingInterval

/-- Embedding of `AttackCycle::set_standby` (auto_attack.rs). -/
def AttackCycleA.setStandby (c : AttackCycleA) (standby : Bool) : AttackCycleA :=
  { c with standby }

/-- Embedding of `AttackCycle::tick` (auto_attack.rs): the standby clamp
also fires while the elapsed time has not passed the scaled frontswing. -/
def AttackCycleA.tick (c : AttackCycleA) (delta : Duration) : AttackCycleA :=
  if c.standby && decide (c.timer.elapsed = 0) then c
  else
    let c' := { c with timer := c.timer.tick delta }
    if c'.standby && (c'.timer.justFinished || decide (c'.timer.elapsed < c'.scaled_frontswing)) then
      { c' with timer := c'.timer.setElapsed 0 }
    else c'

/-! ### `tick_attack_cycle_timers`: the interval derived from the
`AtkInterval` and `Aspd` stats -/

/-- Embedding of the interval computation in `tick_attack_cycle_timers`
of src/battle/auto_attack.rs:
`atk_interval * (100 / aspd)` for positive Aspd, `Duration::MAX` otherwise. -/
def derivedIntervalA (atkInterval : ℚ) (aspd : ℤ) : Duration :=
  if 0 < aspd then atkInterval * (100 / (aspd : ℚ)) else durMax

/-- Embedding of the interval computation in `tick_attack_cycle_timers`
of src/battle/damage.rs:
`atk_interval + (100 / aspd)` for positive Aspd, `Duration::MAX` otherwise. -/
def derivedIntervalD (atkInterval : ℚ) (aspd : ℤ) : Duration :=
  if 0 < aspd then atkInterval + (100 / (aspd : ℚ)) else durMax

/-- Correspondence between the two `AttackCycle` implementations: equality
on every field the implementations share (`last_elapsed` exists only in the
damage.rs variant). -/
def CycleCorresponds (a : AttackCycleA) (d : AttackCycleD) : Prop :=
  a.timer = d.timer ∧ a.standby = d.standby ∧
  a.scaled_frontswing = d.scaled_frontswing ∧
  a.scaled_backswing = d.scaled_backswing ∧
  a.frontswing = d.frontswing ∧ a.backswing = d.backswing

/-- A common call sequence applied to both `AttackCycle` implementations. -/
inductive CycleOp where
  | setInterval (i : Duration)
  | tick (delta : Duration)

/-- Applies a call to the auto_attack.rs cycle. -/
def AttackCycleA.applyOp (c : AttackCycleA) : CycleOp → AttackCycleA
  | .setInterval i => c.setInterval i
  | .tick d => c.tick d

/-- Applies a call to the damage.rs cycle. -/
def AttackCycleD.applyOp (c : AttackCycleD) : CycleOp → AttackCycleD
  | .setInterval i => c.setInterval i
  | .tick d => c.tick d

/-! ### `battle/mod.rs`: `Hostility` -/

/-- Embedding of `Hostility`. -/
inductive Hostility where
  | neutral
  | hostile
  | friendly
  deriving DecidableEq

/-- Embedding of `Hostility::is_hostile_to`. -/
def Hostility.isHostileTo : Hostility → Hostility → Bool
  | .neutral, _ => true
  | _, .neutral => true
  | .hostile, .friendly => true
  | .friendly, .hostile => true
  | _, _ => false

/-! ### `battle/blocking.rs`: `Blocker`, `Blockable`, `start_blocking`,
`disengage_dead_blockers` -/

/-- Embedding of `Blocker`. -/
structure Blocker where
  can_block : Bool
  blocking : List Entity
  deriving DecidableEq

/-- World fragment for the blocking systems.  Every entity has a
`GlobalTransform` (projected to the XZ ground plane) and a
`BoundingCircle`; `Blockable`, `Blocker` and the computed `Block` stat are
optional components.  `ents` fixes the query iteration order. -/
structure BWorld where
  ents : List Entity
  pos : Entity → ℚ × ℚ
  radius : Entity → ℚ
  blockable : Entity → Option (Option Entity)
  blocker : Entity → Option Blocker
  blockStat : Entity → Option ℤ

/-- Squared distance in the ground plane.  `start_blocking` compares
`distance ≤ r₁ + r₂`; with non-negative radii this is equivalent to the
square-free comparison used below. -/
def distSq (p q : ℚ × ℚ) : ℚ :=
  (p.1 - q.1) ^ 2 + (p.2 - q.2) ^ 2

/-- Body of the inner loop of `start_blocking` for one unblocked blockable
`e` against one candidate blocker `b`: on `can_block`, bounding-circle
overlap (`distance ≤ r₁ + r₂`, squared form) and spare capacity, push `e`
onto the blocker's list and point `e`'s `blocked_by` at it.  Note the
source does not break out of the scan after a match. -/
def blockerScanStep (e : Entity) (w : BWorld) (b : Entity) : BWorld :=
  match w.blocker b, w.blockStat b with
  | some blk, some stat =>
    if blk.can_block then
      if distSq (w.pos e) (w.pos b) ≤ (w.radius e + w.radius b) ^ 2 then
        if (blk.blocking.length : ℤ) < stat then
          { w with
              blocker := fun x => if x = b then some { blk with blocking := blk.blocking ++ [e] } else w.blocker x,
              blockable := fun x => if x = e then some (some b) else w.blockable x }
        else w
      else w
    else w
  | _, _ => w

/-- Inner loop of `start_blocking`: scan every blocker in iteration
order. -/
def startBlockingInner (e : Entity) (w : BWorld) : BWorld :=
  w.ents.foldl (blockerScanStep e) w

/-- Body of the outer loop of `start_blocking`: an already-blocked
blockable is skipped without re-scanning. -/
def blockableScanStep (w : BWorld) (e : Entity) : BWorld :=
  match w.blockable e with
  | some none => startBlockingInner e w
  | _ => w

/-- Embedding of `start_blocking`. -/
def startBlocking (w : BWorld) : BWorld :=
  w.ents.foldl blockableScanStep w

/-- Release of one blocked entity in `disengage_dead_blockers`. -/
def releaseStep (w : BWorld) (x : Entity) : BWorld :=
  match w.blockable x with
  | some _ => { w with blockable := fun y => if y = x then some none else w.blockable y }
  | none => w

/-- Body of `disengage_dead_blockers` for one `DeathEvent` entity: if it is
a blocker, clear `blocked_by` on everything it was blocking, empty its list
and permanently clear `can_block`. -/
def disengageStep (w : BWorld) (e : Entity) : BWorld :=
  match w.blocker e with
  | some blk =>
    let w' := blk.blocking.foldl releaseStep w
    { w' with blocker := fun y => if y = e then some { can_block := false, blocking := [] } else w'.blocker y }
  | none => w

/-- Embedding of `disengage_dead_blockers`. -/
def disengageDeadBlockers (w : BWorld) (deaths : List Entity) : BWorld :=
  deaths.foldl disengageStep w

/-- Capacity invariant of the spec: no blocker's list is longer than its
computed `Block` stat. -/
def BlockCapInv (w : BWorld) : Prop :=
  ∀ e blk stat, w.blocker e = some blk → w.blockStat e = some stat →
    (blk.blocking.length : ℤ) ≤ stat

/-! ### `battle/targeting/`: threat tree and the four chained targeting
systems -/

/-- World fragment for the targeting systems.  Every entity has a
`GlobalTransform` (XZ projection) and a `BoundingCircle`; the rest are
optional components.  `Range` is modelled by its circle variant
(`Shape::Circle(Ball)`); polygon ranges live in the external `parry2d`
crate and are not needed by the verified runs.  `targeting` is
`Targeting::max_targets`, `hatred` is the `Hatred` score. -/
structure TWorld where
  ents : List Entity
  pos : Entity → ℚ × ℚ
  radius : Entity → ℚ
  targeting : Entity → Option ℕ
  targets : Entity → Option (List Entity)
  blocker : Entity → Option Blocker
  blockable : Entity → Option (Option Entity)
  hostility : Entity → Option Hostility
  stealth : Entity → Option Bool
  hatred : Entity → Option ℤ
  range : Entity → Option ℚ

/-- Iteration order of the `TargetingTree` built by `sort_targets`: the
`BTreeSet` of `SortedEntity` iterates in ascending `Ord` order, and the
`Ord` instance reverses the `(hatred, entity)` comparison, so iteration
yields descending hatred with descending entity id as the tie-break. -/
def treeLess (w : TWorld) (a b : Entity) : Prop :=
  match w.hatred a, w.hatred b with
  | some ha, some hb => hb < ha ∨ (ha = hb ∧ b < a)
  | _, _ => False

instance (w : TWorld) : DecidableRel (treeLess w) := fun a b => by
  unfold treeLess
  cases w.hatred a <;> cases w.hatred b <;> exact inferInstance

/-- Embedding of `sort_targets`: rebuild the tree from every
hatred-bearing entity. -/
def sortTargets (w : TWorld) : List Entity :=
  (w.ents.filter (fun e => (w.hatred e).isSome)).insertionSort (treeLess w)

/-- Intersection test between a circle range anchored at `p` and a target
bounding circle anchored at `q` (the XZ projections used by
`global_transform_to_isometry`); `parry2d` reports intersection when the
distance does not exceed the sum of the radii. -/
def circlesIntersect (p : ℚ × ℚ) (r : ℚ) (q : ℚ × ℚ) (rq : ℚ) : Bool :=
  decide (distSq p q ≤ (r + rq) ^ 2)

/-- Embedding of `clear_targets`: every `Targets` component is emptied. -/
def clearTargets (w : TWorld) : TWorld :=
  { w with targets := fun e => (w.targets e).map (fun _ => []) }

/-- Hostility of an entity with the `unwrap_or_default()` of the source
(`Neutral` when the component is absent). -/
def hostilityOf (w : TWorld) (e : Entity) : Hostility :=
  (w.hostility e).getD .neutral

/-- Embedding of `priority_blocked_targets` for one actor: extend its
(previously cleared) target list with its still-existing, hostile blocked
opponents, up to the spare capacity `max_targets - len`. -/
def priorityBlockedTargets (w : TWorld) : TWorld :=
  w.ents.foldl (fun w e =>
    match w.targeting e, w.targets e, w.blocker e with
    | some maxT, some ts, some blk =>
      let canTake := maxT - ts.length
      let add := (blk.blocking.filter (fun x =>
        decide (x ∈ w.ents) &&
        (hostilityOf w e).isHostileTo (hostilityOf w x))).take canTake
      { w with targets := fun y => if y = e then some (ts ++ add) else w.targets y }
    | _, _, _ => w) w

/-- Embedding of `priority_blocker_target` for one actor: if capacity
remains and the actor is blocked by a still-existing hostile blocker,
append that blocker. -/
def priorityBlockerTarget (w : TWorld) : TWorld :=
  w.ents.foldl (fun w e =>
    match w.targeting e, w.targets e, w.blockable e with
    | some maxT, some ts, some blockedBy =>
      if ts.length ≥ maxT then w
      else
        match blockedBy with
        | some b =>
          if decide (b ∈ w.ents) && (hostilityOf w e).isHostileTo (hostilityOf w b) then
            { w with targets := fun y => if y = e then some (ts ++ [b]) else w.targets y }
          else w
        | none => w
    | _, _, _ => w) w

/-- Candidate filter of `search_targets`: the candidate must resolve in the
targets query, be visible (`Stealth.visible`, default true), be hostile to
the actor, and intersect the actor's range shape. -/
def searchCandidate (w : TWorld) (e : Entity) (r : ℚ) (x : Entity) : Bool :=
  decide (x ∈ w.ents) &&
  ((w.stealth x).getD true) &&
  (hostilityOf w e).isHostileTo (hostilityOf w x) &&
  circlesIntersect (w.pos e) r (w.pos x) (w.radius x)

/-- Embedding of `search_targets` for every actor with a `Range`: filter
the threat tree and assign (`found_targets.0 = targets.collect()`, an
overwrite of the list, not an extension) the first `max_targets`
survivors. -/
def searchTargets (w : TWorld) : TWorld :=
  let tree := sortTargets w
  w.ents.foldl (fun w e =>
    match w.targeting e, w.targets e, w.range e with
    | some maxT, some _, some r =>
      let found := (tree.filter (searchCandidate w e r)).take maxT
      { w with targets := fun y => if y = e then some found else w.targets y }
    | _, _, _ => w) w

/-- The per-tick targeting pass: the four systems chained in the order
configured by `TargetingPlugin`. -/
def targetingPass (w : TWorld) : TWorld :=
  searchTargets (priorityBlockerTarget (priorityBlockedTargets (clearTargets w)))

/-! ### `tile_map/nav.rs`: `Pathfinder::find_path` and
`compute_navigation` -/

/-- Tile coordinates (`Coordinates`/`IVec2`). -/
abbrev Pos := ℤ × ℤ

/-- Modelled from the spec: `CachedTile::is_solid` is called by
`Pathfinder::find_path` but its definition is not under src/; the spec
describes tiles only through the solidity consulted by the pathfinder
("destination tile marked solid", "non-solid tiles").  A grid is therefore
the coordinate→tile lookup where each cached tile is reduced to its
`is_solid()` value. -/
abbrev Grid := List (Pos × Bool)

/-- Embedding of `Grid::get` (a `HashMap` lookup; keys are inserted at most
once, the assoc-list `find?` below returns the same entry). -/
def Grid.get (g : Grid) (p : Pos) : Option Bool :=
  (g.find? (fun t => decide (t.1 = p))).map (fun t => t.2)

/-- Embedding of `GridNode` (nav.rs): a position with its squared distance
to the search goal. -/
structure GridNode where
  pos : Pos
  distance_squared : ℤ
  deriving DecidableEq

/-- Embedding of `IVec2::distance_squared` (dot product of the difference
with itself). -/
def distanceSquared (a b : Pos) : ℤ :=
  (a.1 - b.1) * (a.1 - b.1) + (a.2 - b.2) * (a.2 - b.2)

/-- Pop of the `BinaryHeap<GridNode>`: `GridNode`'s reversed `Ord` makes
the max-heap yield a node of least `distance_squared`.  (Ties are popped in
an unspecified order in Rust; the verified properties do not depend on the
choice.) -/
def popMin : List GridNode → Option (GridNode × List GridNode)
  | [] => none
  | n :: ns =>
    match popMin ns with
    | none => some (n, [])
    | some (m, rest) => if n.distance_squared ≤ m.distance_squared then some (n, ns) else some (m, n :: rest)

/-- Lookup in the backtracking `memory` map. -/
def memLookup (mem : List (Pos × Pos)) (p : Pos) : Option Pos :=
  (mem.find? (fun t => decide (t.1 = p))).map (fun t => t.2)

/-- The four neighbor offsets `[IVec2::X, IVec2::Y, -IVec2::X, -IVec2::Y]`
in source order. -/
def dirList : List Pos := [(1, 0), (0, 1), (-1, 0), (0, -1)]

/-- One neighbor visit of the search loop: skip the start tile, already
remembered tiles, tiles absent from the grid and solid tiles; otherwise
push the neighbor onto the open heap and remember its parent. -/
def visitNeighbor (g : Grid) (start goal cur : Pos)
    (st : List GridNode × List (Pos × Pos)) (npos : Pos) :
    List GridNode × List (Pos × Pos) :=
  if npos = start then st
  else if (memLookup st.2 npos).isSome then st
  else
    match g.get npos with
    | some solid =>
      if solid then st
      else (⟨npos, distanceSquared npos goal⟩ :: st.1, (npos, cur) :: st.2)
    | none => st

/-- Neighbor expansion of one popped node. -/
def expandNode (g : Grid) (start goal cur : Pos)
    (open_ : List GridNode) (mem : List (Pos × Pos)) :
    List GridNode × List (Pos × Pos) :=
  (dirList.map (fun d => (cur.1 + d.1, cur.2 + d.2))).foldl
    (visitNeighbor g start goal cur) (open_, mem)

/-- Backtracking of the path reconstruction: follow the `memory` parent
pointers from the goal (the source's `while let Some(next) = memory.get(..)`
loop); the fuel is an upper bound on the chain length, proved sufficient
below. -/
def backtrack (mem : List (Pos × Pos)) : ℕ → Pos → List Pos
  | 0, p => [p]
  | fuel + 1, p =>
    match memLookup mem p with
    | none => [p]
    | some q => p :: backtrack mem fuel q

/-- Embedding of the path reconstruction of `find_path`: collect from the
goal back to the start, then reverse. -/
def reconstructPath (mem : List (Pos × Pos)) (goal : Pos) : List Pos :=
  (backtrack mem mem.length goal).reverse

/-- Main loop of `Pathfinder::find_path`, with explicit fuel standing for
the source's unbounded `while let Some(current) = open.pop()`; `none` marks
fuel exhaustion and is proved unreachable for the fuel used by
`findPath`. -/
def findPathLoop (g : Grid) (start goal : Pos) :
    ℕ → List GridNode → List (Pos × Pos) → Option (Except Unit (List Pos))
  | 0, _, _ => none
  | fuel + 1, open_, mem =>
    match popMin open_ with
    | none => some (.error ())
    | some (cur, rest) =>
      if cur.pos = goal then some (.ok (reconstructPath mem cur.pos))
      else
        let st := expandNode g start goal cur.pos rest mem
        findPathLoop g start goal fuel st.1 st.2

/-- Fuel sufficient for any run on `g` (each loop iteration strictly
decreases `5·(unvisited tiles) + (open size)`). -/
def fuelFor (g : Grid) : ℕ := 5 * g.length + 2

/-- Embedding of `Pathfinder::find_path`: start from the open heap holding
the start node and an empty memory; `Except.error ()` is `NoPathError`. -/
def findPath (g : Grid) (start goal : Pos) : Option (Except Unit (List Pos)) :=
  findPathLoop g start goal (fuelFor g) [⟨start, distanceSquared start goal⟩] []

/-- Four-adjacency as the code generates it: `v` is `u` plus one of the
four direction offsets. -/
def adj (u v : Pos) : Prop :=
  (v.1 - u.1, v.2 - u.2) ∈ dirList

/-- A tile the search may stand on: present in the grid and not solid. -/
def eligibleTile (g : Grid) (p : Pos) : Prop :=
  g.get p = some false

/-- One step of the claim's walk relation: a 4-adjacent move onto a
non-solid grid tile. -/
def navStep (g : Grid) (u v : Pos) : Prop :=
  adj u v ∧ eligibleTile g v

/-- The claim's notion of connectivity: a sequence of 4-adjacent steps
through non-solid tiles from `s` to `e` (the start tile itself is not
required to be non-solid; the source documents "Assumes the starting node
is a valid node"). -/
def Reaches (g : Grid) (s e : Pos) : Prop :=
  Relation.ReflTransGen (navStep g) s e

/-- A path as the claim describes the `Ok` payload: starts at `s`, ends at
`e`, every step is 4-adjacent onto a non-solid grid tile. -/
def ValidPath (g : Grid) (s e : Pos) (l : List Pos) : Prop :=
  l.head? = some s ∧ l.getLast? = some e ∧ l.Chain' (navStep g)

/-- Embedding of `CalculatedPath` (nav.rs): the tile path and the world
waypoint queue consumed by steering. -/
structure CalculatedPath where
  path : List Pos
  waypoints : List (ℚ × ℚ × ℚ)
  deriving DecidableEq

/-- Embedding of the body of `compute_navigation` for one entity.  The
bevy/affine parts are inputs: `tf` is the grid transform applied to
`Coordinates::local(0.0)`, `navTarget` the entity's `Nav::target`,
`navChanged` the `Ref<Nav>::is_changed` flag, and `startC`/`targetC` the
tile coordinates obtained from the inverse grid transform.  On a
`NoPathError` the stored path is kept, but the waypoint queue is rebuilt
from it unconditionally. -/
def computeNavigationEntity (g : Grid) (tf : Pos → ℚ × ℚ × ℚ) (navTarget : ℚ × ℚ × ℚ)
    (navChanged : Bool) (startC targetC : Pos) (cp : CalculatedPath) : CalculatedPath :=
  if cp.path ≠ [] ∧ navChanged = false then cp
  else
    let path' :=
      match findPath g startC targetC with
      | some (.ok p) => p
      | _ => cp.path
    { path := path', waypoints := path'.map tf ++ [navTarget] }

/-! ### Invariants and search bookkeeping used by the theorems -/

/-- Upper-clamp invariant of `Health` maintained by the simulation's
mutations: hp never exceeds the tracked max, and the max is positive. -/
def HealthInv (h : Health) : Prop :=
  h.get ≤ h.max_hp ∧ 0 < h.max_hp

/-- Swing-containment invariant of the auto_attack.rs `AttackCycle`,
strengthened with the fact that a zero interval forces zero scaled swings
(needed because `set_interval` skips the swing refit when the current
duration is zero). -/
def SwingInv (c : AttackCycleA) : Prop :=
  c.scaled_frontswing + c.scaled_backswing ≤ c.interval ∧
  (c.interval = 0 → c.scaled_frontswing = 0 ∧ c.scaled_backswing = 0)

/-- Keys of the pathfinder's backtracking memory. -/
def memKeys (mem : List (Pos × Pos)) : List Pos :=
  mem.map Prod.fst

/-- Structural invariant of the backtracking memory: every entry maps a
fresh, non-start, eligible tile to an adjacent parent that is the start or
an earlier-remembered tile. -/
def MemOk (g : Grid) (start : Pos) : List (Pos × Pos) → Prop
  | [] => True
  | (p, q) :: rest =>
    p ∉ memKeys rest ∧ p ≠ start ∧ eligibleTile g p ∧ adj q p ∧
    (q = start ∨ q ∈ memKeys rest) ∧ MemOk g start rest

/-- Every open node is the start or a remembered tile. -/
def OpenOk (start : Pos) (mem : List (Pos × Pos)) (open_ : List GridNode) : Prop :=
  ∀ n ∈ open_, n.pos = start ∨ n.pos ∈ memKeys mem

/-- Completeness bookkeeping: every visited tile either still waits on the
open heap or already has all of its eligible neighbors visited. -/
def FrontierOk (g : Grid) (start : Pos) (open_ : List GridNode) (mem : List (Pos × Pos)) : Prop :=
  ∀ p, (p = start ∨ p ∈ memKeys mem) →
    (∃ n ∈ open_, n.pos = p) ∨ ∀ v, navStep g p v → v = start ∨ v ∈ memKeys mem

/-- If the goal has been visited it still waits on the open heap (popping
it ends the search with `Ok`). -/
def GoalPending (start goal : Pos) (open_ : List GridNode) (mem : List (Pos × Pos)) : Prop :=
  (goal = start ∨ goal ∈ memKeys mem) → ∃ n ∈ open_, n.pos = goal

/-- Combined loop invariant of `findPathLoop`. -/
def LoopInv (g : Grid) (start goal : Pos) (open_ : List GridNode) (mem : List (Pos × Pos)) : Prop :=
  MemOk g start mem ∧ OpenOk start mem open_ ∧ FrontierOk g start open_ mem ∧
  GoalPending start goal open_ mem ∧ (∀ p ∈ memKeys mem, p ∈ g.map Prod.fst)

/-- Termination measure of the search: five per unvisited grid tile plus
one per open node; every loop iteration strictly decreases it. -/
def searchMeasure (g : Grid) (open_ : List GridNode) (mem : List (Pos × Pos)) : ℕ :=
  5 * ((g.map Prod.fst).filter (fun p => decide (p ∉ memKeys mem))).length + open_.length

/-- Facts carried through one node expansion of the search, relative to the
state `(rest₀, mem₀)` the expansion starts from: the memory and open-list
invariants, memory keys staying inside the grid, monotone growth, every new
key having a pending open node, the measure not increasing, and the
expanded node staying known. -/
def ExpandInv (g : Grid) (s cur : Pos) (rest₀ : List GridNode) (mem₀ : List (Pos × Pos))
    (st : List GridNode × List (Pos × Pos)) : Prop :=
  MemOk g s st.2 ∧
  OpenOk s st.2 st.1 ∧
  (∀ p ∈ memKeys st.2, p ∈ g.map Prod.fst) ∧
  (∀ p ∈ memKeys mem₀, p ∈ memKeys st.2) ∧
  (∀ n ∈ rest₀, n ∈ st.1) ∧
  (∀ p ∈ memKeys st.2, p ∈ memKeys mem₀ ∨ ∃ n ∈ st.1, n.pos = p) ∧
  searchMeasure g st.1 st.2 ≤ searchMeasure g rest₀ mem₀ ∧
  (cur = s ∨ cur ∈ memKeys st.2)

/-- Domain fact about the computed `Block` stat: `stats/stat.rs` clamps it
to a non-negative value. -/
def StatNonneg (w : BWorld) : Prop :=
  ∀ e s, w.blockStat e = some s → 0 ≤ s

/-- Concrete blocking world: blockable 0 overlaps blockers 1 and 2, both
enabled with capacity 2 and empty lists. -/
def W6 : BWorld where
  ents := [0, 1, 2]
  pos := fun e => if e = 1 then (1, 0) else if e = 2 then (0, 1) else (0, 0)
  radius := fun _ => 1
  blockable := fun e => if e = 0 then some none else none
  blocker := fun e => if e = 0 then none else some { can_block := true, blocking := [] }
  blockStat := fun e => if e = 0 then none else some 2

/-- Concrete blocking world: blockables 0 and 3 both overlap the single
blocker 1, which is enabled with capacity 2 and an empty list. -/
def W7 : BWorld where
  ents := [0, 1, 3]
  pos := fun e => if e = 0 then (1, 0) else if e = 3 then (0, 1) else (0, 0)
  radius := fun _ => 1
  blockable := fun e => if e = 0 then some none else if e = 3 then some none else none
  blocker := fun e => if e = 1 then some { can_block := true, blocking := [] } else none
  blockStat := fun e => if e = 1 then some 2 else none

/-- Concrete targeting world: actor 0 (friendly, circle range of radius 1,
`max_targets = 2`) currently blocks the hostile entity 1, which sits far
out of range at (10, 10); entity 2 is a hostile, visible, in-range
threat-tree candidate at (1, 0). -/
def W1 : TWorld where
  ents := [0, 1, 2]
  pos := fun e => if e = 1 then (10, 10) else if e = 2 then (1, 0) else (0, 0)
  radius := fun e => if e = 0 then 0 else 1
  targeting := fun e => if e = 0 then some 2 else none
  targets := fun e => if e = 0 then some [] else none
  blocker := fun e => if e = 0 then some { can_block := true, blocking := [1] } else none
  blockable := fun _ => none
  hostility := fun e => if e = 0 then some .friendly else some .hostile
  stealth := fun _ => none
  hatred := fun e => if e = 2 then some 5 else none
  range := fun e => if e = 0 then some 1 else none

/-- Concrete two-tile grid: the start tile (0,0) is walkable, the
destination tile (1,0) is marked solid. -/
def W8g : Grid := [((0, 0), false), ((1, 0), true)]

/-! ## Theorems -/

/-! ### Claim C2 — Health clamping -/

theorem health_applyOp_inv (h : Health) (op : HealthOp) (hinv : HealthInv h)
    (hop : op.posRescale) : HealthInv (h.applyOp op) := by
  obtain ⟨hle, hpos⟩ := hinv
  cases op with
  | set v =>
    refine ⟨min_le_right _ _, hpos⟩
  | rescale m =>
    refine ⟨?_, hop⟩
    show h.hp * m / h.max_hp ≤ m
    rw [div_le_iff₀ hpos]
    have hm : (0:ℚ) ≤ m := le_of_lt hop
    calc h.hp * m ≤ h.max_hp * m := by
          exact mul_le_mul_of_nonneg_right hle hm
      _ = m * h.max_hp := by ring

theorem health_fold_inv (ops : List HealthOp) (h : Health) (hinv : HealthInv h)
    (hops : ∀ op ∈ ops, op.posRescale) : HealthInv (ops.foldl Health.applyOp h) := by
  induction ops generalizing h with
  | nil => exact hinv
  | cons op rest ih =>
    exact ih (h.applyOp op) (health_applyOp_inv h op hinv (hops op (by simp)))
      (fun o ho => hops o (by simp [ho]))

/-- Claim C2, counterexample: `Health::set` does not clamp from below, so a
mutation can make `get()` negative — starting from `Health::new(100)`,
`set(-5)` leaves `get() = -5 < 0`, refuting `0 ≤ Health::get()` as an
invariant of all mutations. -/
theorem c2_counterexample :
    ((Health.new 100).set (-5)).get = -5 ∧ ¬ (0 ≤ ((Health.new 100).set (-5)).get) := by
  have : ((Health.new 100).set (-5)).get = -5 := by
    show min (-5 : ℚ) 100 = -5
    norm_num
  exact ⟨this, by rw [this]; norm_num⟩

/-- Claim C2, amended: under every sequence of `Health::set` calls and
positive-max proportional rescales, `Health::get() ≤ max_hp` is invariant
(and the max stays positive); in particular setting hp above `max_hp`
truncates to `max_hp`.  The lower bound `0 ≤ get()` of the original claim
does not hold: `set` performs no lower clamp (see the counterexample). -/
theorem c2_health_clamp_amended (h : Health) (ops : List HealthOp)
    (hinv : HealthInv h) (hops : ∀ op ∈ ops, op.posRescale) :
    HealthInv (ops.foldl Health.applyOp h) ∧
    (∀ v, (h.set v).get ≤ h.max_hp) ∧
    (∀ v, h.max_hp ≤ v → (h.set v).get = h.max_hp) := by
  refine ⟨health_fold_inv ops h hinv hops, fun v => min_le_right _ _, fun v hv => ?_⟩
  show min v h.max_hp = h.max_hp
  exact min_eq_right hv

theorem c2_health_clamp_amended_witness :
    HealthInv ([HealthOp.set 2000, HealthOp.rescale 3000].foldl Health.applyOp (Health.new 1500)) ∧
    (∀ v, ((Health.new 1500).set v).get ≤ (Health.new 1500).max_hp) ∧
    (∀ v, (Health.new 1500).max_hp ≤ v → ((Health.new 1500).set v).get = (Health.new 1500).max_hp) :=
  c2_health_clamp_amended (Health.new 1500) [HealthOp.set 2000, HealthOp.rescale 3000]
    (by constructor <;> norm_num [Health.new, Health.get])
    (by
      intro op hop
      simp only [List.mem_cons, List.not_mem_nil, or_false] at hop
      rcases hop with rfl | rfl
      · trivial
      · norm_num [HealthOp.posRescale])

/-! ### Claim C9 — Skill SP clamping -/

/-- Claim C9: `Skill::mutate` leaves `sp` unchanged during sp lockout and
otherwise sets it to `f(sp)` clamped into `[0, cap]`, where the cap is
`max_sp` under `Capped` and `max_sp·n` under `Charge(n)`; consequently
`sp ∈ [0, cap]` is preserved by every mutate call. -/
theorem c9_mutate_clamped (s : Skill) (f : ℚ → ℚ) (hmax : 0 < s.max_sp) :
    (s.sp_lockout = true → s.mutate f = s) ∧
    (s.sp_lockout = false →
      (s.mutate f).sp = min (max (f s.sp) 0) s.cap ∧
      0 ≤ (s.mutate f).sp ∧ (s.mutate f).sp ≤ s.cap) ∧
    (0 ≤ s.sp → s.sp ≤ s.cap → 0 ≤ (s.mutate f).sp ∧ (s.mutate f).sp ≤ s.cap) := by
  have hcap : 0 ≤ s.cap := by
    unfold Skill.cap
    cases hov : s.overflow with
    | capped => exact le_of_lt hmax
    | charge n =>
      have : (0:ℚ) < (n : ℕ) := by
        exact_mod_cast n.pos
      positivity
  constructor
  · intro hl
    simp [Skill.mutate, hl]
  constructor
  · intro hl
    have hm : s.mutate f = { s with sp := min (max (f s.sp) 0) s.cap } := by
      simp [Skill.mutate, hl]
    rw [hm]
    exact ⟨rfl, le_min (le_max_right _ _) hcap, min_le_right _ _⟩
  · intro h0 hc
    by_cases hl : s.sp_lockout
    · simp [Skill.mutate, hl, h0, hc]
    · have hm : s.mutate f = { s with sp := min (max (f s.sp) 0) s.cap } := by
        simp [Skill.mutate, hl]
      rw [hm]
      exact ⟨le_min (le_max_right _ _) hcap, min_le_right _ _⟩

theorem c9_mutate_clamped_witness :
    ((Skill.new 10 .capped).sp_lockout = true → (Skill.new 10 .capped).mutate (fun x => x + 3) = Skill.new 10 .capped) ∧
    ((Skill.new 10 .capped).sp_lockout = false →
      ((Skill.new 10 .capped).mutate (fun x => x + 3)).sp =
        min (max ((fun x => x + 3) (Skill.new 10 .capped).sp) 0) (Skill.new 10 .capped).cap ∧
      0 ≤ ((Skill.new 10 .capped).mutate (fun x => x + 3)).sp ∧
      ((Skill.new 10 .capped).mutate (fun x => x + 3)).sp ≤ (Skill.new 10 .capped).cap) ∧
    (0 ≤ (Skill.new 10 .capped).sp → (Skill.new 10 .capped).sp ≤ (Skill.new 10 .capped).cap →
      0 ≤ ((Skill.new 10 .capped).mutate (fun x => x + 3)).sp ∧
      ((Skill.new 10 .capped).mutate (fun x => x + 3)).sp ≤ (Skill.new 10 .capped).cap) :=
  c9_mutate_clamped (Skill.new 10 .capped) (fun x => x + 3) (by norm_num [Skill.new])

/-! ### Claim C3 — Dead is sticky, one DeathEvent per life -/

theorem dead_mono_op (w : DWorld) (op : SimOp) (e : Entity)
    (hd : w.dead e = true) : (w.applyOp op).dead e = true := by
  cases op with
  | setHp x v => simpa [DWorld.applyOp] using hd
  | rescaleMaxHp x m => simpa [DWorld.applyOp] using hd
  | sendDeath => simp [DWorld.applyOp, sendDeathEvent, hd]

theorem dead_mono (w : DWorld) (ops : List SimOp) (e : Entity)
    (hd : w.dead e = true) : (w.applyOps ops).dead e = true := by
  induction ops generalizing w with
  | nil => exact hd
  | cons op rest ih =>
    exact ih (w.applyOp op) (dead_mono_op w op e hd)

/-- Claim C3: the `Dead` marker is sticky — once set, no sequence of
simulation operations (hp sets, max-hp rescales, death passes) clears it —
and `send_death_event` emits exactly one `DeathEvent` per entity per life:
an event fires for an entity precisely when it is queried, not yet `Dead`,
and at `hp ≤ 0` (each such entity is marked `Dead` and, the entity list
being duplicate-free, receives a single event), while an already-`Dead`
entity never produces one — in particular a second pass emits nothing for
an entity the first pass killed. -/
theorem c3_dead_sticky_death_once (w : DWorld) (ops : List SimOp) (e : Entity)
    (hd : w.dead e = true) :
    (w.applyOps ops).dead e = true ∧
    (∀ (w' : DWorld) (x : Entity),
      (x ∈ (sendDeathEvent w').2 ↔ x ∈ w'.ents ∧ w'.dead x = false ∧ (w'.health x).get ≤ 0) ∧
      (w'.ents.Nodup → (sendDeathEvent w').2.Nodup) ∧
      ((sendDeathEvent w').1.dead x = true ↔
        w'.dead x = true ∨ (x ∈ w'.ents ∧ (w'.health x).get ≤ 0)) ∧
      (x ∈ w'.ents → (w'.health x).get ≤ 0 → x ∉ (sendDeathEvent (sendDeathEvent w').1).2)) := by
  have hdeadiff : ∀ (w' : DWorld) (x : Entity),
      (sendDeathEvent w').1.dead x = true ↔
        w'.dead x = true ∨ (x ∈ w'.ents ∧ (w'.health x).get ≤ 0) := by
    intro w' x
    cases hb : w'.dead x with
    | false => simp [sendDeathEvent, hb]
    | true => simp [sendDeathEvent, hb]
  refine ⟨dead_mono w ops e hd, fun w' x => ?_⟩
  have hmem : x ∈ (sendDeathEvent w').2 ↔
      x ∈ w'.ents ∧ w'.dead x = false ∧ (w'.health x).get ≤ 0 := by
    simp only [sendDeathEvent, List.mem_filter, Bool.and_eq_true, Bool.not_eq_true',
      decide_eq_true_eq]
  refine ⟨hmem, fun hnd => hnd.filter _, hdeadiff w' x, ?_⟩
  intro hm hle hin
  have h1 : (sendDeathEvent w').1.dead x = true :=
    (hdeadiff w' x).mpr (Or.inr ⟨hm, hle⟩)
  have h2 : (sendDeathEvent (sendDeathEvent w').1).2 =
      ((sendDeathEvent w').1.ents.filter
        (fun y => !(sendDeathEvent w').1.dead y && decide (((sendDeathEvent w').1.health y).get ≤ 0))) := rfl
  rw [h2] at hin
  have := (List.mem_filter.mp hin).2
  rw [h1] at this
  simp at this

theorem c3_dead_sticky_death_once_witness :
    (((DWorld.mk [7] (fun _ => Health.new 100) (fun x => decide (x = 7))).applyOps
        [SimOp.setHp 7 50, SimOp.sendDeath, SimOp.rescaleMaxHp 7 200]).dead 7 = true) ∧
    (∀ (w' : DWorld) (x : Entity),
      (x ∈ (sendDeathEvent w').2 ↔ x ∈ w'.ents ∧ w'.dead x = false ∧ (w'.health x).get ≤ 0) ∧
      (w'.ents.Nodup → (sendDeathEvent w').2.Nodup) ∧
      ((sendDeathEvent w').1.dead x = true ↔
        w'.dead x = true ∨ (x ∈ w'.ents ∧ (w'.health x).get ≤ 0)) ∧
      (x ∈ w'.ents → (w'.health x).get ≤ 0 → x ∉ (sendDeathEvent (sendDeathEvent w').1).2)) :=
  c3_dead_sticky_death_once
    (DWorld.mk [7] (fun _ => Health.new 100) (fun x => decide (x = 7)))
    [SimOp.setHp 7 50, SimOp.sendDeath, SimOp.rescaleMaxHp 7 200] 7 (by decide)

/-! ### Claim C4 — hit crediting versus tick size -/

theorem Timer.tick_whole (t : Timer) (m : ℕ) (hm : 1 ≤ m) (hT : 0 < t.duration)
    (h0 : 0 ≤ t.elapsed) (hlt : t.elapsed < t.duration) :
    t.tick ((m : ℚ) * t.duration) = ⟨t.duration, t.elapsed, m⟩ := by
  have hTne : t.duration ≠ 0 := ne_of_gt hT
  have hcond : t.duration ≤ t.elapsed + (m : ℚ) * t.duration := by
    have h1 : (1 : ℚ) ≤ (m : ℚ) := by exact_mod_cast hm
    nlinarith
  have hdiv : (t.elapsed + (m : ℚ) * t.duration) / t.duration =
      t.elapsed / t.duration + (m : ℚ) := by
    field_simp
  have hfl0 : ⌊t.elapsed / t.duration⌋ = 0 := by
    rw [Int.floor_eq_zero_iff, Set.mem_Ico]
    exact ⟨div_nonneg h0 (le_of_lt hT), (div_lt_one hT).mpr hlt⟩
  have hk : ⌊(t.elapsed + (m : ℚ) * t.duration) / t.duration⌋ = (m : ℤ) := by
    rw [hdiv, show ((m : ℚ)) = ((m : ℤ) : ℚ) by push_cast; ring,
      Int.floor_add_int, hfl0, zero_add]
  have helapsed : t.elapsed + (m : ℚ) * t.duration - t.duration * (((m : ℤ).toNat : ℕ) : ℚ) =
      t.elapsed := by
    rw [Int.toNat_natCast]
    ring
  simp only [Timer.tick, hk]
  rw [if_pos hcond]
  simp only [Int.toNat_natCast]
  congr 1

theorem attack_boundary_false (x f : ℚ) :
    (decide (x < f) && decide (f ≤ x)) = false := by
  by_cases h : x < f
  · simp [h, not_le.mpr h]
  · simp [h]

theorem cycleD_tick_whole (c : AttackCycleD) (m : ℕ) (hm : 1 ≤ m) (hsb : c.standby = false)
    (hT : 0 < c.interval) (h0 : 0 ≤ c.timer.elapsed) (hlt : c.timer.elapsed < c.interval) :
    c.tick ((m : ℚ) * c.interval) =
      { c with last_elapsed := c.timer.elapsed, timer := ⟨c.interval, c.timer.elapsed, m⟩ } := by
  have ht := Timer.tick_whole c.timer m hm hT h0 hlt
  simp [AttackCycleD.tick, hsb, AttackCycleD.interval, ht]

theorem cycleD_attacks_whole (c : AttackCycleD) (m : ℕ) (hm : 1 ≤ m) (hsb : c.standby = false)
    (hT : 0 < c.interval) (h0 : 0 ≤ c.timer.elapsed) (hlt : c.timer.elapsed < c.interval) :
    (c.tick ((m : ℚ) * c.interval)).attacksThisTick = m - 1 := by
  rw [cycleD_tick_whole c m hm hsb hT h0 hlt]
  simp [AttackCycleD.attacksThisTick, AttackCycleD.timesFinishedThisTick,
    attack_boundary_false]

/-- Claim C4, counterexample: in steady state (interval 2 s, frontswing
1 s, elapsed 0, no standby) one tick of `2×interval` credits 1 hit while
two ticks of `interval` credit 0 + 0 — the totals are not equal, refuting
tick-size invariance of `attacks_this_tick` as stated. -/
theorem c4_counterexample :
    (((⟨⟨2, 0, 0⟩, false, 0, 1, 1, 1, 1⟩ : AttackCycleD).tick (2 * 2)).attacksThisTick ≠
      ((⟨⟨2, 0, 0⟩, false, 0, 1, 1, 1, 1⟩ : AttackCycleD).tick 2).attacksThisTick +
        ((((⟨⟨2, 0, 0⟩, false, 0, 1, 1, 1, 1⟩ : AttackCycleD).tick 2)).tick 2).attacksThisTick) := by
  have h2 : ((2 : ℚ) * 2) = ((2 : ℕ) : ℚ) * ((⟨⟨2, 0, 0⟩, false, 0, 1, 1, 1, 1⟩ : AttackCycleD)).interval := by
    norm_num [AttackCycleD.interval]
  have ha := cycleD_attacks_whole (⟨⟨2, 0, 0⟩, false, 0, 1, 1, 1, 1⟩ : AttackCycleD) 2
    (by norm_num) rfl (by norm_num [AttackCycleD.interval]) le_rfl
    (by norm_num [AttackCycleD.interval])
  have hb := cycleD_tick_whole (⟨⟨2, 0, 0⟩, false, 0, 1, 1, 1, 1⟩ : AttackCycleD) 1
    (by norm_num) rfl (by norm_num [AttackCycleD.interval]) le_rfl
    (by norm_num [AttackCycleD.interval])
  have hb1 : ((⟨⟨2, 0, 0⟩, false, 0, 1, 1, 1, 1⟩ : AttackCycleD).tick 2) =
      (⟨⟨2, 0, 1⟩, false, 0, 1, 1, 1, 1⟩ : AttackCycleD) := by
    have : ((1 : ℕ) : ℚ) * (⟨⟨2, 0, 0⟩, false, 0, 1, 1, 1, 1⟩ : AttackCycleD).interval = 2 := by
      norm_num [AttackCycleD.interval]
    rw [← this]
    simpa [AttackCycleD.interval] using hb
  have hc := cycleD_tick_whole (⟨⟨2, 0, 1⟩, false, 0, 1, 1, 1, 1⟩ : AttackCycleD) 1
    (by norm_num) rfl (by norm_num [AttackCycleD.interval]) le_rfl
    (by norm_num [AttackCycleD.interval])
  have hc1 : ((⟨⟨2, 0, 1⟩, false, 0, 1, 1, 1, 1⟩ : AttackCycleD).tick 2) =
      (⟨⟨2, 0, 1⟩, false, 0, 1, 1, 1, 1⟩ : AttackCycleD) := by
    have : ((1 : ℕ) : ℚ) * (⟨⟨2, 0, 1⟩, false, 0, 1, 1, 1, 1⟩ : AttackCycleD).interval = 2 := by
      norm_num [AttackCycleD.interval]
    rw [← this]
    simpa [AttackCycleD.interval] using hc
  rw [h2, ha, hb1, hc1]
  norm_num [AttackCycleD.attacksThisTick, AttackCycleD.timesFinishedThisTick]

/-- Claim C4, amended: hit crediting is not tick-size invariant.  In steady
state (positive interval, elapsed within the cycle, standby off) a single
tick of `m×interval` credits exactly `m - 1` hits: one tick of `2×interval`
credits 1, while two successive ticks of `interval` credit 0 each — the
large tick always credits exactly one more hit than the two small ticks,
because `attacks_this_tick` drops the hit of a completed cycle whenever the
wrapped elapsed time sits below the scaled frontswing. -/
theorem c4_hit_credit_amended (c : AttackCycleD) (hsb : c.standby = false)
    (hT : 0 < c.interval) (h0 : 0 ≤ c.timer.elapsed) (hlt : c.timer.elapsed < c.interval) :
    (c.tick (2 * c.interval)).attacksThisTick = 1 ∧
    (c.tick (1 * c.interval)).attacksThisTick = 0 ∧
    ((c.tick (1 * c.interval)).tick (1 * c.interval)).attacksThisTick = 0 := by
  have h2 : (2 : ℚ) * c.interval = ((2 : ℕ) : ℚ) * c.interval := by norm_num
  have h1 : (1 : ℚ) * c.interval = ((1 : ℕ) : ℚ) * c.interval := by norm_num
  have ha := cycleD_attacks_whole c 2 (by norm_num) hsb hT h0 hlt
  have hb := cycleD_attacks_whole c 1 (by norm_num) hsb hT h0 hlt
  have hbt := cycleD_tick_whole c 1 (by norm_num) hsb hT h0 hlt
  refine ⟨by rw [h2, ha], by rw [h1, hb], ?_⟩
  rw [h1, hbt]
  set c1 : AttackCycleD :=
    { c with last_elapsed := c.timer.elapsed, timer := ⟨c.interval, c.timer.elapsed, 1⟩ } with hc1
  have hcs : c1.standby = false := hsb
  have hci : c1.interval = c.interval := rfl
  have hce : c1.timer.elapsed = c.timer.elapsed := rfl
  have hc := cycleD_attacks_whole c1 1 (by norm_num) hcs (by rw [hci]; exact hT)
    (by rw [hce]; exact h0) (by rw [hce, hci]; exact hlt)
  calc (c1.tick (((1 : ℕ) : ℚ) * c.interval)).attacksThisTick
      = (c1.tick (((1 : ℕ) : ℚ) * c1.interval)).attacksThisTick := by rw [hci]
    _ = 0 := hc

theorem c4_hit_credit_amended_witness :
    (((⟨⟨3, 1, 0⟩, false, 0, 1, 1, 1, 1⟩ : AttackCycleD).tick
        (2 * (⟨⟨3, 1, 0⟩, false, 0, 1, 1, 1, 1⟩ : AttackCycleD).interval)).attacksThisTick = 1) ∧
    (((⟨⟨3, 1, 0⟩, false, 0, 1, 1, 1, 1⟩ : AttackCycleD).tick
        (1 * (⟨⟨3, 1, 0⟩, false, 0, 1, 1, 1, 1⟩ : AttackCycleD).interval)).attacksThisTick = 0) ∧
    ((((⟨⟨3, 1, 0⟩, false, 0, 1, 1, 1, 1⟩ : AttackCycleD).tick
        (1 * (⟨⟨3, 1, 0⟩, false, 0, 1, 1, 1, 1⟩ : AttackCycleD).interval)).tick
        (1 * (⟨⟨3, 1, 0⟩, false, 0, 1, 1, 1, 1⟩ : AttackCycleD).interval)).attacksThisTick = 0) :=
  c4_hit_credit_amended (⟨⟨3, 1, 0⟩, false, 0, 1, 1, 1, 1⟩ : AttackCycleD) rfl
    (by norm_num [AttackCycleD.interval]) (by norm_num) (by norm_num [AttackCycleD.interval])

/-! ### Claim C5 — swing containment under `set_interval` -/

theorem durMax_pos : (0 : ℚ) < durMax := by norm_num [durMax]

theorem swing_fields (c : AttackCycleA) (i : ℚ) :
    (c.setInterval i).frontswing = c.frontswing ∧
    (c.setInterval i).backswing = c.backswing := by
  simp only [AttackCycleA.setInterval, AttackCycleA.scaleSwingInterval]
  split_ifs <;> simp

theorem scale_swing_inv (c : AttackCycleA) (hfs : 0 < c.frontswing) (hbs : 0 < c.backswing) :
    SwingInv c.scaleSwingInterval ∧ c.scaleSwingInterval.interval = c.interval := by
  have htot : 0 < c.frontswing + c.backswing := by linarith
  have htne : c.frontswing + c.backswing ≠ 0 := ne_of_gt htot
  by_cases hlt : c.frontswing + c.backswing < c.interval
  · have hres : c.scaleSwingInterval =
        { c with scaled_frontswing := c.frontswing, scaled_backswing := c.backswing } := by
      unfold AttackCycleA.scaleSwingInterval
      rw [if_neg htne, if_pos hlt]
    rw [hres]
    refine ⟨⟨le_of_lt hlt, fun hz => ?_⟩, rfl⟩
    exfalso
    have hz' : c.interval = 0 := hz
    rw [hz'] at hlt
    linarith
  · have hres : c.scaleSwingInterval =
        { c with scaled_frontswing := c.interval * (c.frontswing / (c.frontswing + c.backswing)),
                 scaled_backswing := c.interval * (c.backswing / (c.frontswing + c.backswing)) } := by
      unfold AttackCycleA.scaleSwingInterval
      rw [if_neg htne, if_neg hlt]
    rw [hres]
    have hsum : c.interval * (c.frontswing / (c.frontswing + c.backswing)) +
        c.interval * (c.backswing / (c.frontswing + c.backswing)) = c.interval := by
      field_simp
      ring
    refine ⟨⟨le_of_eq hsum, fun hz => ?_⟩, rfl⟩
    have hz' : c.interval = 0 := hz
    constructor
    · show c.interval * (c.frontswing / (c.frontswing + c.backswing)) = 0
      rw [hz']
      ring
    · show c.interval * (c.backswing / (c.frontswing + c.backswing)) = 0
      rw [hz']
      ring

theorem setInterval_inv (c : AttackCycleA) (i : ℚ) (hfs : 0 < c.frontswing)
    (hbs : 0 < c.backswing) (hi : 0 ≤ i) (hinv : SwingInv c) :
    SwingInv (c.setInterval i) := by
  unfold AttackCycleA.setInterval
  by_cases heq : c.timer.duration = i
  · rw [if_pos heq]
    exact hinv
  rw [if_neg heq]
  by_cases hz : c.timer.duration = 0
  · rw [if_pos hz]
    have hsc := hinv.2 hz
    constructor
    · show c.scaled_frontswing + c.scaled_backswing ≤ i
      rw [hsc.1, hsc.2]
      simpa using hi
    · intro _
      exact hsc
  · rw [if_neg hz]
    exact (scale_swing_inv
      { c with timer := (Timer.new i).setElapsed (c.timer.elapsed * (i / c.timer.duration)) }
      hfs hbs).1

theorem swingInv_fold (ops : List ℚ) (c : AttackCycleA) (hfs : 0 < c.frontswing)
    (hbs : 0 < c.backswing) (hinv : SwingInv c) (hops : ∀ i ∈ ops, 0 ≤ i) :
    SwingInv (ops.foldl AttackCycleA.setInterval c) := by
  induction ops generalizing c with
  | nil => exact hinv
  | cons i rest ih =>
    have hf := swing_fields c i
    exact ih (c.setInterval i) (hf.1 ▸ hfs) (hf.2 ▸ hbs)
      (setInterval_inv c i hfs hbs (hops i (by simp)) hinv)
      (fun j hj => hops j (by simp [hj]))

/-- Claim C5, counterexample: an `AttackCycle` constructed with the
positive frontswing and backswing `Duration::MAX` and then given the call
`set_interval(Duration::MAX)` (equal to the current duration, so the call
returns early without refitting the swings) violates
`scaled_frontswing + scaled_backswing ≤ interval`. -/
theorem c5_counterexample :
    0 < durMax ∧
    ¬ (((AttackCycleA.new durMax durMax).setInterval durMax).scaled_frontswing +
        ((AttackCycleA.new durMax durMax).setInterval durMax).scaled_backswing ≤
        ((AttackCycleA.new durMax durMax).setInterval durMax).interval) := by
  have hset : (AttackCycleA.new durMax durMax).setInterval durMax =
      AttackCycleA.new durMax durMax := by
    have hc : (AttackCycleA.new durMax durMax).timer.duration = durMax := rfl
    unfold AttackCycleA.setInterval
    rw [if_pos hc]
  rw [hset]
  refine ⟨durMax_pos, ?_⟩
  show ¬ (durMax + durMax ≤ (AttackCycleA.new durMax durMax).interval)
  have : (AttackCycleA.new durMax durMax).interval = durMax := rfl
  rw [this]
  intro hle
  have := durMax_pos
  linarith

/-- Claim C5, amended: for an `AttackCycle` constructed with positive
frontswing and backswing whose sum does not exceed `Duration::MAX`, after
every sequence of `set_interval` calls (with the non-negative durations the
stat pass produces) the invariant
`scaled_frontswing + scaled_backswing ≤ interval` holds; the restriction on
the sum is forced by the counterexample, where the construction state
itself breaks the bound and an interval-preserving call keeps it broken. -/
theorem c5_swing_containment_amended (fs bs : ℚ) (hfs : 0 < fs) (hbs : 0 < bs)
    (hmax : fs + bs ≤ durMax) (ops : List ℚ) (hops : ∀ i ∈ ops, 0 ≤ i) :
    (ops.foldl AttackCycleA.setInterval (AttackCycleA.new fs bs)).scaled_frontswing +
      (ops.foldl AttackCycleA.setInterval (AttackCycleA.new fs bs)).scaled_backswing ≤
      (ops.foldl AttackCycleA.setInterval (AttackCycleA.new fs bs)).interval := by
  have hbase : SwingInv (AttackCycleA.new fs bs) := by
    constructor
    · exact hmax
    · intro hz
      exact absurd (show durMax = 0 from hz) (ne_of_gt durMax_pos)
  exact (swingInv_fold ops (AttackCycleA.new fs bs) hfs hbs hbase hops).1

theorem c5_swing_containment_amended_witness :
    ([(3 : ℚ), 1/2].foldl AttackCycleA.setInterval (AttackCycleA.new 1 1)).scaled_frontswing +
      ([(3 : ℚ), 1/2].foldl AttackCycleA.setInterval (AttackCycleA.new 1 1)).scaled_backswing ≤
      ([(3 : ℚ), 1/2].foldl AttackCycleA.setInterval (AttackCycleA.new 1 1)).interval :=
  c5_swing_containment_amended 1 1 (by norm_num) (by norm_num) (by norm_num [durMax])
    [(3 : ℚ), 1/2]
    (by
      intro i hi
      simp only [List.mem_cons, List.not_mem_nil, or_false] at hi
      rcases hi with rfl | rfl <;> norm_num)

/-! ### Claim C10 — the two `AttackCycle` implementations -/

theorem Timer.tick_duration_eq (t : Timer) (δ : ℚ) : (t.tick δ).duration = t.duration := by
  simp only [Timer.tick]
  split_ifs <;> rfl

theorem tickA_no_standby (a : AttackCycleA) (hsb : a.standby = false) (δ : ℚ) :
    a.tick δ = { a with timer := a.timer.tick δ } := by
  simp [AttackCycleA.tick, hsb]

theorem tickD_no_standby (d : AttackCycleD) (hsb : d.standby = false) (δ : ℚ) :
    d.tick δ = { d with last_elapsed := d.timer.elapsed, timer := d.timer.tick δ } := by
  simp [AttackCycleD.tick, hsb]

theorem setIntervalA_ne (a : AttackCycleA) (i : ℚ) (hne : a.timer.duration ≠ i)
    (hz : a.timer.duration ≠ 0) :
    a.setInterval i = (AttackCycleA.scaleSwingInterval
      { a with timer := (Timer.new i).setElapsed (a.timer.elapsed * (i / a.timer.duration)) }) := by
  unfold AttackCycleA.setInterval
  rw [if_neg hne, if_neg hz]

theorem setIntervalD_ne (d : AttackCycleD) (i : ℚ) (hne : d.timer.duration ≠ i) :
    d.setInterval i = (AttackCycleD.scaleSwingInterval
      { d with timer := (Timer.new i).setElapsed (d.timer.elapsed * (i / d.timer.duration)) }) := by
  unfold AttackCycleD.setInterval
  rw [if_neg hne]

theorem scaleA_preserves (c : AttackCycleA) :
    c.scaleSwingInterval.timer = c.timer ∧ c.scaleSwingInterval.standby = c.standby := by
  simp only [AttackCycleA.scaleSwingInterval]
  split_ifs <;> exact ⟨rfl, rfl⟩

theorem scale_corr (a : AttackCycleA) (d : AttackCycleD) (hc : CycleCorresponds a d) :
    CycleCorresponds a.scaleSwingInterval d.scaleSwingInterval := by
  obtain ⟨ht, hs, hsf, hsb2, hf, hb⟩ := hc
  have hdur : a.timer.duration = d.timer.duration := by rw [ht]
  unfold AttackCycleA.scaleSwingInterval AttackCycleD.scaleSwingInterval
  simp only [AttackCycleA.interval, AttackCycleD.interval]
  rw [hf, hb, hdur]
  split_ifs
  · exact ⟨ht, hs, hsf, hsb2, hf, hb⟩
  · exact ⟨ht, hs, rfl, rfl, rfl, rfl⟩
  · exact ⟨ht, hs, rfl, rfl, rfl, rfl⟩

theorem cycle_step_corr (a : AttackCycleA) (d : AttackCycleD) (op : CycleOp)
    (hc : CycleCorresponds a d) (hsb : a.standby = false) (hdur : a.timer.duration ≠ 0)
    (hop : ∀ i, op = CycleOp.setInterval i → i ≠ 0) :
    CycleCorresponds (a.applyOp op) (d.applyOp op) ∧
    (a.applyOp op).standby = false ∧ (a.applyOp op).timer.duration ≠ 0 := by
  obtain ⟨ht, hs, hsf, hsb2, hf, hb⟩ := hc
  have hsd : d.standby = false := hs ▸ hsb
  cases op with
  | tick δ =>
    rw [show AttackCycleA.applyOp a (.tick δ) = a.tick δ from rfl,
      show AttackCycleD.applyOp d (.tick δ) = d.tick δ from rfl,
      tickA_no_standby a hsb δ, tickD_no_standby d hsd δ]
    refine ⟨⟨by rw [ht], by rw [hs], hsf, hsb2, hf, hb⟩, hsb, ?_⟩
    show (a.timer.tick δ).duration ≠ 0
    rw [Timer.tick_duration_eq]
    exact hdur
  | setInterval i =>
    have hi : i ≠ 0 := hop i rfl
    rw [show AttackCycleA.applyOp a (.setInterval i) = a.setInterval i from rfl,
      show AttackCycleD.applyOp d (.setInterval i) = d.setInterval i from rfl]
    by_cases heq : a.timer.duration = i
    · have heqd : d.timer.duration = i := by rw [← ht]; exact heq
      have ha : a.setInterval i = a := by
        unfold AttackCycleA.setInterval
        rw [if_pos heq]
      have hd : d.setInterval i = d := by
        unfold AttackCycleD.setInterval
        rw [if_pos heqd]
      rw [ha, hd]
      exact ⟨⟨ht, hs, hsf, hsb2, hf, hb⟩, hsb, hdur⟩
    · have heqd : d.timer.duration ≠ i := by rw [← ht]; exact heq
      rw [setIntervalA_ne a i heq hdur, setIntervalD_ne d i heqd]
      have hcorr : CycleCorresponds
          { a with timer := (Timer.new i).setElapsed (a.timer.elapsed * (i / a.timer.duration)) }
          { d with timer := (Timer.new i).setElapsed (d.timer.elapsed * (i / d.timer.duration)) } := by
        exact ⟨by rw [ht], hs, hsf, hsb2, hf, hb⟩
      refine ⟨scale_corr _ _ hcorr, ?_, ?_⟩
      · rw [(scaleA_preserves _).2]
        exact hsb
      · rw [(scaleA_preserves _).1]
        exact hi

theorem cycle_fold_corr (ops : List CycleOp) (a : AttackCycleA) (d : AttackCycleD)
    (hc : CycleCorresponds a d) (hsb : a.standby = false) (hdur : a.timer.duration ≠ 0)
    (hops : ∀ i, CycleOp.setInterval i ∈ ops → i ≠ 0) :
    CycleCorresponds (ops.foldl AttackCycleA.applyOp a) (ops.foldl AttackCycleD.applyOp d) := by
  induction ops generalizing a d with
  | nil => exact hc
  | cons op rest ih =>
    obtain ⟨hc', hsb', hdur'⟩ := cycle_step_corr a d op hc hsb hdur
      (fun i hi => hops i (by rw [hi]; exact List.mem_cons_self _ _))
    exact ih (a.applyOp op) (d.applyOp op) hc' hsb' hdur'
      (fun i hi => hops i (List.mem_cons_of_mem _ hi))

/-- Claim C10, counterexample: the two implementations are not
behaviorally equivalent.  With `AtkInterval = 1.5` and `Aspd = 100` the
auto_attack.rs `tick_attack_cycle_timers` derives interval
`1.5 × (100/100) = 1.5 s` while the damage.rs one derives
`1.5 + 100/100 = 2.5 s`; and from corresponding standby states (elapsed
`1/5`, scaled frontswing `1/2`), one `tick(0.1)` leaves elapsed `0` in the
auto_attack.rs cycle but `3/10` in the damage.rs cycle. -/
theorem c10_counterexample :
    derivedIntervalA (3 / 2) 100 ≠ derivedIntervalD (3 / 2) 100 ∧
    CycleCorresponds (⟨⟨1, 1 / 5, 0⟩, true, 1 / 2, 0, 1 / 2, 0⟩ : AttackCycleA)
      (⟨⟨1, 1 / 5, 0⟩, true, 0, 1 / 2, 0, 1 / 2, 0⟩ : AttackCycleD) ∧
    ((⟨⟨1, 1 / 5, 0⟩, true, 1 / 2, 0, 1 / 2, 0⟩ : AttackCycleA).tick (1 / 10)).timer.elapsed ≠
      ((⟨⟨1, 1 / 5, 0⟩, true, 0, 1 / 2, 0, 1 / 2, 0⟩ : AttackCycleD).tick (1 / 10)).timer.elapsed := by
  refine ⟨?_, ⟨rfl, rfl, rfl, rfl, rfl, rfl⟩, ?_⟩
  · norm_num [derivedIntervalA, derivedIntervalD]
  · have hA : ((⟨⟨1, 1 / 5, 0⟩, true, 1 / 2, 0, 1 / 2, 0⟩ : AttackCycleA).tick (1 / 10)).timer.elapsed = 0 := by
      norm_num [AttackCycleA.tick, Timer.tick, Timer.justFinished, Timer.setElapsed]
    have hD : ((⟨⟨1, 1 / 5, 0⟩, true, 0, 1 / 2, 0, 1 / 2, 0⟩ : AttackCycleD).tick (1 / 10)).timer.elapsed = 3 / 10 := by
      norm_num [AttackCycleD.tick, Timer.tick, Timer.justFinished, Timer.setElapsed]
    rw [hA, hD]
    norm_num

/-- Claim C10, amended: the two `AttackCycle` implementations agree (on
every shared field) for identical construction arguments and any identical
sequence of `set_interval` (with nonzero argument) and `tick` calls while
standby is never enabled, and the stat-derived intervals agree whenever
`Aspd ≤ 0` (both give `Duration::MAX`); the counterexample shows they
diverge otherwise — the derived interval is multiplicative in
auto_attack.rs but additive in damage.rs, and their standby clamping
differs. -/
theorem c10_equivalence_amended (fs bs : Duration) (ops : List CycleOp)
    (hops : ∀ i, CycleOp.setInterval i ∈ ops → i ≠ 0) :
    CycleCorresponds (ops.foldl AttackCycleA.applyOp (AttackCycleA.new fs bs))
      (ops.foldl AttackCycleD.applyOp (AttackCycleD.new fs bs)) ∧
    (∀ t aspd, aspd ≤ 0 → derivedIntervalA t aspd = derivedIntervalD t aspd) := by
  constructor
  · exact cycle_fold_corr ops (AttackCycleA.new fs bs) (AttackCycleD.new fs bs)
      ⟨rfl, rfl, rfl, rfl, rfl, rfl⟩ rfl (ne_of_gt durMax_pos) hops
  · intro t aspd h
    simp [derivedIntervalA, derivedIntervalD, not_lt.mpr h]

theorem c10_equivalence_amended_witness :
    CycleCorresponds
      ([CycleOp.setInterval 2, CycleOp.tick (1 / 2)].foldl AttackCycleA.applyOp (AttackCycleA.new 1 1))
      ([CycleOp.setInterval 2, CycleOp.tick (1 / 2)].foldl AttackCycleD.applyOp (AttackCycleD.new 1 1)) ∧
    (∀ t aspd, aspd ≤ 0 → derivedIntervalA t aspd = derivedIntervalD t aspd) :=
  c10_equivalence_amended 1 1 [CycleOp.setInterval 2, CycleOp.tick (1 / 2)]
    (by
      intro i hi
      simp only [List.mem_cons, List.not_mem_nil, or_false] at hi
      rcases hi with hi | hi
      · cases hi
        norm_num
      · cases hi)

/-! ### Claims C6 and C7 — blocking -/

theorem foldl_preserve {α : Type} (f : BWorld → α → BWorld) (P : BWorld → Prop)
    (hf : ∀ w x, P w → P (f w x)) : ∀ (l : List α) (w : BWorld), P w → P (l.foldl f w) := by
  intro l
  induction l with
  | nil => exact fun w hw => hw
  | cons x rest ih => exact fun w hw => ih (f w x) (hf w x hw)

theorem blockerScanStep_pres (e : Entity) (S : Entity → Option ℤ) (E : List Entity)
    (w : BWorld) (b : Entity) (hp : w.blockStat = S ∧ w.ents = E ∧ BlockCapInv w) :
    (blockerScanStep e w b).blockStat = S ∧ (blockerScanStep e w b).ents = E ∧
    BlockCapInv (blockerScanStep e w b) := by
  obtain ⟨hS, hE, hinv⟩ := hp
  rcases hB : w.blocker b with _ | blk
  · have hred : blockerScanStep e w b = w := by
      unfold blockerScanStep
      rw [hB]
    rw [hred]
    exact ⟨hS, hE, hinv⟩
  rcases hT : w.blockStat b with _ | stat
  · have hred : blockerScanStep e w b = w := by
      unfold blockerScanStep
      rw [hB, hT]
    rw [hred]
    exact ⟨hS, hE, hinv⟩
  have hred : blockerScanStep e w b =
      (if blk.can_block = true then
        if distSq (w.pos e) (w.pos b) ≤ (w.radius e + w.radius b) ^ 2 then
          if (blk.blocking.length : ℤ) < stat then
            { w with
                blocker := fun x => if x = b then some { blk with blocking := blk.blocking ++ [e] } else w.blocker x,
                blockable := fun x => if x = e then some (some b) else w.blockable x }
          else w
        else w
      else w) := by
    unfold blockerScanStep
    rw [hB, hT]
  rw [hred]
  split_ifs with h1 h2 h3
  · refine ⟨hS, hE, ?_⟩
    intro e' blk' stat' hb' hs'
    have hb2 : (if e' = b then some { blk with blocking := blk.blocking ++ [e] }
        else w.blocker e') = some blk' := hb'
    have hs2 : w.blockStat e' = some stat' := hs'
    by_cases hbe : e' = b
    · rw [if_pos hbe] at hb2
      subst hbe
      have hstat' : stat' = stat := by
        rw [hT] at hs2
        exact (Option.some_inj.mp hs2).symm
      have hblk' : blk' = { blk with blocking := blk.blocking ++ [e] } :=
        (Option.some_inj.mp hb2).symm
      rw [hblk', hstat']
      simp only [List.length_append, List.length_singleton]
      push_cast
      linarith
    · rw [if_neg hbe] at hb2
      exact hinv e' blk' stat' hb2 hs2
  · exact ⟨hS, hE, hinv⟩
  · exact ⟨hS, hE, hinv⟩
  · exact ⟨hS, hE, hinv⟩

theorem blockableScanStep_pres (S : Entity → Option ℤ) (E : List Entity)
    (w : BWorld) (e : Entity) (hp : w.blockStat = S ∧ w.ents = E ∧ BlockCapInv w) :
    (blockableScanStep w e).blockStat = S ∧ (blockableScanStep w e).ents = E ∧
    BlockCapInv (blockableScanStep w e) := by
  rcases hB : w.blockable e with _ | ob
  · have hred : blockableScanStep w e = w := by
      unfold blockableScanStep
      rw [hB]
    rw [hred]
    exact hp
  rcases ob with _ | b
  · have hred : blockableScanStep w e = startBlockingInner e w := by
      unfold blockableScanStep
      rw [hB]
    rw [hred]
    exact foldl_preserve (blockerScanStep e)
      (fun w' => w'.blockStat = S ∧ w'.ents = E ∧ BlockCapInv w')
      (blockerScanStep_pres e S E) w.ents w hp
  · have hred : blockableScanStep w e = w := by
      unfold blockableScanStep
      rw [hB]
    rw [hred]
    exact hp

theorem startBlocking_inv (w : BWorld) (hinv : BlockCapInv w) :
    BlockCapInv (startBlocking w) := by
  have := foldl_preserve blockableScanStep
    (fun w' => w'.blockStat = w.blockStat ∧ w'.ents = w.ents ∧ BlockCapInv w')
    (blockableScanStep_pres w.blockStat w.ents) w.ents w ⟨rfl, rfl, hinv⟩
  exact this.2.2

theorem releaseStep_pres (w : BWorld) (x : Entity) :
    (releaseStep w x).blockStat = w.blockStat ∧ (releaseStep w x).blocker = w.blocker := by
  unfold releaseStep
  rcases hB : w.blockable x with _ | ob <;> exact ⟨rfl, rfl⟩

theorem disengageStep_pres (S : Entity → Option ℤ) (hS : ∀ e s, S e = some s → 0 ≤ s)
    (w : BWorld) (e : Entity) (hp : w.blockStat = S ∧ BlockCapInv w) :
    (disengageStep w e).blockStat = S ∧ BlockCapInv (disengageStep w e) := by
  obtain ⟨hstat, hinv⟩ := hp
  rcases hB : w.blocker e with _ | blk
  · have hred : disengageStep w e = w := by
      unfold disengageStep
      rw [hB]
    rw [hred]
    exact ⟨hstat, hinv⟩
  have hred : disengageStep w e =
      { blk.blocking.foldl releaseStep w with
          blocker := fun y => if y = e then some { can_block := false, blocking := [] }
            else (blk.blocking.foldl releaseStep w).blocker y } := by
    unfold disengageStep
    rw [hB]
  have hfold := foldl_preserve releaseStep
    (fun w' => w'.blockStat = S ∧ w'.blocker = w.blocker)
    (fun w' x hp' => by
      obtain ⟨h1, h2⟩ := releaseStep_pres w' x
      exact ⟨h1.trans hp'.1, h2.trans hp'.2⟩)
    blk.blocking w ⟨hstat, rfl⟩
  rw [hred]
  refine ⟨hfold.1, ?_⟩
  intro e' blk' stat' hb' hs'
  have hb2 : (if e' = e then some { can_block := false, blocking := [] }
      else (blk.blocking.foldl releaseStep w).blocker e') = some blk' := hb'
  have hs2 : (blk.blocking.foldl releaseStep w).blockStat e' = some stat' := hs'
  rw [hfold.1] at hs2
  by_cases hee : e' = e
  · rw [if_pos hee] at hb2
    have hblk' : blk' = { can_block := false, blocking := [] } :=
      (Option.some_inj.mp hb2).symm
    rw [hblk']
    simpa using hS e' stat' hs2
  · rw [if_neg hee] at hb2
    rw [hfold.2] at hb2
    exact hinv e' blk' stat' hb2 (by rw [hstat]; exact hs2)

theorem disengage_inv (w : BWorld) (deaths : List Entity)
    (hS : StatNonneg w) (hinv : BlockCapInv w) :
    BlockCapInv (disengageDeadBlockers w deaths) := by
  have hS2 : ∀ e s, w.blockStat e = some s → 0 ≤ s := hS
  have := foldl_preserve disengageStep
    (fun w' => w'.blockStat = w.blockStat ∧ BlockCapInv w')
    (disengageStep_pres w.blockStat hS2) deaths w ⟨rfl, hinv⟩
  exact this.2

theorem startBlocking_skip_all (w : BWorld)
    (h : ∀ e ∈ w.ents, w.blockable e ≠ some none) : startBlocking w = w := by
  have hstep : ∀ e ∈ w.ents, blockableScanStep w e = w := by
    intro e he
    rcases hB : w.blockable e with _ | ob
    · unfold blockableScanStep
      rw [hB]
    rcases ob with _ | b
    · exact absurd hB (h e he)
    · unfold blockableScanStep
      rw [hB]
  have hfold : ∀ (l : List Entity), (∀ e ∈ l, blockableScanStep w e = w) →
      l.foldl blockableScanStep w = w := by
    intro l
    induction l with
    | nil => intro _; rfl
    | cons e rest ih =>
      intro hl
      rw [List.foldl_cons, hl e (by simp)]
      exact ih (fun x hx => hl x (by simp [hx]))
  exact hfold w.ents hstep

/-- Claim C6 (code bug): `start_blocking` does not stop scanning once a
blocker is found, so a previously-unblocked blockable overlapping two
eligible blockers ends the pass registered in both blockers' `blocking`
lists with `blocked_by` pointing at the last match in iteration order, not
the first — the claimed "exactly one Blocker's blocking list, blocked_by
pointing at that same (first) blocker" fails at this input. -/
theorem c6_double_block_bug :
    (startBlocking W6).blocker 1 = some { can_block := true, blocking := [0] } ∧
    (startBlocking W6).blocker 2 = some { can_block := true, blocking := [0] } ∧
    (startBlocking W6).blockable 0 = some (some 2) := by
  norm_num [startBlocking, blockableScanStep, startBlockingInner, blockerScanStep, W6, distSq]

/-- Claim C7, counterexample: a blocker filled to its capacity 2 by a
`start_blocking` pass keeps both blockees after the computed `Block` stat
drops to 1, and a further `start_blocking` pass does not shed the excess —
an observable state with `blocking.len() = 2 > 1 = Block`. -/
theorem c7_counterexample :
    (startBlocking W7).blocker 1 = some { can_block := true, blocking := [0, 3] } ∧
    ¬ BlockCapInv { startBlocking W7 with blockStat := fun _ => some 1 } ∧
    ¬ BlockCapInv (startBlocking { startBlocking W7 with blockStat := fun _ => some 1 }) := by
  have h1 : (startBlocking W7).blocker 1 = some { can_block := true, blocking := [0, 3] } ∧
      (startBlocking W7).blockable 0 = some (some 1) ∧
      (startBlocking W7).blockable 1 = none ∧
      (startBlocking W7).blockable 3 = some (some 1) ∧
      (startBlocking W7).ents = [0, 1, 3] := by
    norm_num [startBlocking, blockableScanStep, startBlockingInner, blockerScanStep, W7, distSq]
  obtain ⟨hb1, ha0, ha1, ha3, hents⟩ := h1
  have hnoblk : ¬ BlockCapInv { startBlocking W7 with blockStat := fun _ => some 1 } := by
    intro h
    have := h 1 { can_block := true, blocking := [0, 3] } 1 hb1 rfl
    norm_num at this
  refine ⟨hb1, hnoblk, ?_⟩
  have hskip : startBlocking { startBlocking W7 with blockStat := fun _ => some 1 } =
      { startBlocking W7 with blockStat := fun _ => some 1 } := by
    apply startBlocking_skip_all
    intro e he
    have he' : e ∈ [0, 1, 3] := by
      have : ({ startBlocking W7 with blockStat := fun _ => some 1 } : BWorld).ents =
          (startBlocking W7).ents := rfl
      rw [this, hents] at he
      exact he
    have hblk : ({ startBlocking W7 with blockStat := fun _ => some 1 } : BWorld).blockable =
        (startBlocking W7).blockable := rfl
    rw [hblk]
    simp only [List.mem_cons, List.not_mem_nil, or_false] at he'
    rcases he' with rfl | rfl | rfl
    · rw [ha0]
      intro hc
      cases hc
    · rw [ha1]
      intro hc
      cases hc
    · rw [ha3]
      intro hc
      cases hc
  rw [hskip]
  exact hnoblk

/-- Claim C7, amended: neither blocking pass ever pushes past capacity —
`start_blocking` preserves `blocking.len() ≤ Block` for every blocker
(a push requires `len < stat`), and `disengage_dead_blockers` preserves it
as well (it only empties lists, the stat domain being non-negative) — so
with a computed `Block` stat that never drops below a current list length
the invariant holds at every observable point; the counterexample shows it
can fail right after the stat itself drops. -/
theorem c7_capacity_amended (w : BWorld) (deaths : List Entity)
    (hS : StatNonneg w) (hinv : BlockCapInv w) :
    BlockCapInv (startBlocking w) ∧ BlockCapInv (disengageDeadBlockers w deaths) :=
  ⟨startBlocking_inv w hinv, disengage_inv w deaths hS hinv⟩

theorem c7_capacity_amended_witness :
    BlockCapInv (startBlocking W7) ∧ BlockCapInv (disengageDeadBlockers W7 [1]) :=
  c7_capacity_amended W7 [1]
    (by
      intro e s hs
      simp only [W7] at hs
      by_cases he : e = 1
      · rw [if_pos he] at hs
        cases hs
        norm_num
      · rw [if_neg he] at hs
        cases hs)
    (by
      intro e blk stat hb hstat
      simp only [W7] at hb hstat
      by_cases he : e = 1
      · rw [if_pos he] at hb hstat
        cases hb
        cases hstat
        norm_num
      · rw [if_neg he] at hb
        cases hb)

/-! ### Claim C1 — per-tick targeting pass -/

/-- Claim C1 (code bug): the targeting pass does not produce
"blocked opponents first, then the search candidates".  In `W1` the chained
systems first inject the blocked hostile opponent (after
`priority_blocked_targets` the actor's list is `[1]`), but `search_targets`
then assigns `found_targets.0 = targets.collect()` — overwriting instead of
filling remaining capacity — so the pass ends with `[2]` rather than the
claimed `[1, 2]`: the still-alive hostile blocked opponent is dropped for
every actor with a `Range`. -/
theorem c1_targeting_overwrite_bug :
    (priorityBlockedTargets (clearTargets W1)).targets 0 = some [1] ∧
    (priorityBlockerTarget (priorityBlockedTargets (clearTargets W1))).targets 0 = some [1] ∧
    (targetingPass W1).targets 0 = some [2] := by
  norm_num [targetingPass, searchTargets, priorityBlockerTarget, priorityBlockedTargets,
    clearTargets, sortTargets, searchCandidate, circlesIntersect, hostilityOf,
    Hostility.isHostileTo, treeLess, distSq, W1, List.insertionSort, List.orderedInsert]

/-! ### Claim C8 — pathfinding: basic search-structure lemmas -/

theorem popMin_eq_none {l : List GridNode} : popMin l = none ↔ l = [] := by
  cases l with
  | nil => simp [popMin]
  | cons n ns =>
    simp only [popMin]
    rcases h : popMin ns with _ | ⟨m, rest⟩
    · simp
    · simp only []
      constructor
      · intro hc
        by_cases hle : n.distance_squared ≤ m.distance_squared <;> simp [hle] at hc
      · intro hc
        cases hc

theorem popMin_perm {l : List GridNode} {n : GridNode} {rest : List GridNode}
    (h : popMin l = some (n, rest)) : l.Perm (n :: rest) := by
  induction l generalizing n rest with
  | nil => cases h
  | cons x xs ih =>
    simp only [popMin] at h
    rcases hx : popMin xs with _ | ⟨m, r⟩
    · rw [hx] at h
      have h2 : some (x, ([] : List GridNode)) = some (n, rest) := h
      have hnil : xs = [] := popMin_eq_none.mp hx
      simp only [Option.some_inj, Prod.mk.injEq] at h2
      obtain ⟨rfl, rfl⟩ := h2
      subst hnil
      exact List.Perm.refl _
    · rw [hx] at h
      have h2 : (if x.distance_squared ≤ m.distance_squared then some (x, xs)
          else some (m, x :: r)) = some (n, rest) := h
      by_cases hle : x.distance_squared ≤ m.distance_squared
      · rw [if_pos hle] at h2
        simp only [Option.some_inj, Prod.mk.injEq] at h2
        obtain ⟨rfl, rfl⟩ := h2
        exact List.Perm.refl _
      · rw [if_neg hle] at h2
        simp only [Option.some_inj, Prod.mk.injEq] at h2
        obtain ⟨rfl, rfl⟩ := h2
        have hperm := ih hx
        exact (hperm.cons x).trans (List.Perm.swap m x r)

theorem memKeys_cons (e : Pos × Pos) (mem : List (Pos × Pos)) :
    memKeys (e :: mem) = e.1 :: memKeys mem := rfl

theorem memLookup_cons_self {mem : List (Pos × Pos)} {p q : Pos} :
    memLookup ((p, q) :: mem) p = some q := by
  simp [memLookup, List.find?_cons]

theorem memLookup_cons_ne {mem : List (Pos × Pos)} {e : Pos × Pos} {x : Pos}
    (h : x ≠ e.1) : memLookup (e :: mem) x = memLookup mem x := by
  simp only [memLookup, List.find?_cons]
  have hd : (decide (e.1 = x)) = false := by
    simp only [decide_eq_false_iff_not]
    exact fun hc => h hc.symm
  rw [hd]

theorem memLookup_eq_none {mem : List (Pos × Pos)} {p : Pos} :
    memLookup mem p = none ↔ p ∉ memKeys mem := by
  induction mem with
  | nil => simp [memLookup, memKeys]
  | cons e rest ih =>
    obtain ⟨a, b⟩ := e
    by_cases hp : p = a
    · subst hp
      rw [memLookup_cons_self, memKeys_cons]
      simp
    · rw [memLookup_cons_ne (show p ≠ (a, b).1 from hp), memKeys_cons, ih]
      simp only [List.mem_cons]
      constructor
      · intro h hc
        rcases hc with hc | hc
        · exact hp hc
        · exact h hc
      · intro h hc
        exact h (Or.inr hc)

theorem memLookup_isSome {mem : List (Pos × Pos)} {p : Pos} :
    (memLookup mem p).isSome = true ↔ p ∈ memKeys mem := by
  constructor
  · intro h
    by_contra hc
    rw [memLookup_eq_none.mpr hc] at h
    cases h
  · intro h
    rcases ho : memLookup mem p with _ | q
    · exact absurd (memLookup_eq_none.mp ho) (by simpa using h)
    · rfl

theorem memLookup_some_mem {mem : List (Pos × Pos)} {p q : Pos}
    (h : memLookup mem p = some q) : (p, q) ∈ mem := by
  simp only [memLookup] at h
  rcases hf : List.find? (fun t => decide (t.1 = p)) mem with _ | e
  · rw [hf] at h
    cases h
  · rw [hf] at h
    have hq : e.2 = q := by
      have : some e.2 = some q := h
      exact Option.some_inj.mp this
    have he := List.mem_of_find?_eq_some hf
    have hp := List.find?_some hf
    simp only [decide_eq_true_eq] at hp
    obtain ⟨a, b⟩ := e
    cases hp
    cases hq
    exact he

theorem memOk_keys_ne_start {g : Grid} {s : Pos} {mem : List (Pos × Pos)} {p : Pos}
    (hok : MemOk g s mem) (hp : p ∈ memKeys mem) : p ≠ s := by
  induction mem with
  | nil => cases hp
  | cons e rest ih =>
    obtain ⟨q₁, q₂⟩ := e
    obtain ⟨_, hne, _, _, _, hrest⟩ := hok
    rw [memKeys_cons] at hp
    rcases List.mem_cons.mp hp with rfl | hp2
    · exact hne
    · exact ih hrest hp2

theorem memOk_entry {g : Grid} {s : Pos} {mem : List (Pos × Pos)} {p q : Pos}
    (hok : MemOk g s mem) (hmem : (p, q) ∈ mem) :
    adj q p ∧ eligibleTile g p ∧ p ≠ s ∧ (q = s ∨ q ∈ memKeys mem) := by
  induction mem with
  | nil => cases hmem
  | cons e rest ih =>
    obtain ⟨p₁, q₁⟩ := e
    obtain ⟨hnk, hne, hel, hadj, hpar, hrest⟩ := hok
    rw [memKeys_cons]
    rcases List.mem_cons.mp hmem with heq | hmem2
    · cases heq
      refine ⟨hadj, hel, hne, ?_⟩
      rcases hpar with h | h
      · exact Or.inl h
      · exact Or.inr (List.mem_cons_of_mem _ h)
    · obtain ⟨h1, h2, h3, h4⟩ := ih hrest hmem2
      refine ⟨h1, h2, h3, ?_⟩
      rcases h4 with h | h
      · exact Or.inl h
      · exact Or.inr (List.mem_cons_of_mem _ h)

theorem memOk_cons {g : Grid} {s : Pos} {mem : List (Pos × Pos)} {p q : Pos}
    (hok : MemOk g s mem) (hkey : p ∉ memKeys mem) (hne : p ≠ s)
    (hel : eligibleTile g p) (hadj : adj q p) (hpar : q = s ∨ q ∈ memKeys mem) :
    MemOk g s ((p, q) :: mem) :=
  ⟨hkey, hne, hel, hadj, hpar, hok⟩

/-! ### Claim C8 — pathfinding: correctness of the reconstruction -/

theorem backtrack_nil (p : Pos) : ∀ fuel, backtrack [] fuel p = [p] := by
  intro fuel
  cases fuel with
  | zero => rfl
  | succ f => simp [backtrack, memLookup]

theorem backtrack_start {g : Grid} {s : Pos} {mem : List (Pos × Pos)}
    (hok : MemOk g s mem) : ∀ fuel, backtrack mem fuel s = [s] := by
  intro fuel
  cases fuel with
  | zero => rfl
  | succ f =>
    have hnone : memLookup mem s = none := memLookup_eq_none.mpr
      (fun hc => (memOk_keys_ne_start hok hc) rfl)
    simp [backtrack, hnone]

theorem backtrack_skip {g : Grid} {s : Pos} {e : Pos × Pos} {rest : List (Pos × Pos)}
    (hok : MemOk g s (e :: rest)) :
    ∀ (fuel : ℕ) (x : Pos), (x = s ∨ x ∈ memKeys rest) →
      backtrack (e :: rest) fuel x = backtrack rest fuel x := by
  intro fuel
  induction fuel with
  | zero => intro x _; rfl
  | succ f ih =>
    intro x hx
    obtain ⟨p₁, q₁⟩ := e
    obtain ⟨hnk, hne, _, _, _, hrest⟩ := hok
    have hxne : x ≠ ((p₁, q₁) : Pos × Pos).1 := by
      rcases hx with rfl | hx
      · exact fun hc => hne hc.symm
      · intro hc
        subst hc
        exact hnk hx
    rw [show backtrack ((p₁, q₁) :: rest) (f + 1) x =
        (match memLookup ((p₁, q₁) :: rest) x with
         | none => [x]
         | some q => x :: backtrack ((p₁, q₁) :: rest) f q) from rfl,
      show backtrack rest (f + 1) x =
        (match memLookup rest x with
         | none => [x]
         | some q => x :: backtrack rest f q) from rfl,
      memLookup_cons_ne hxne]
    rcases hq : memLookup rest x with _ | q
    · rfl
    · show x :: backtrack ((p₁, q₁) :: rest) f q = x :: backtrack rest f q
      have hqmem := memLookup_some_mem hq
      have hpar := (memOk_entry hrest hqmem).2.2.2
      rw [ih q hpar]

theorem backtrack_valid {g : Grid} {s : Pos} :
    ∀ (mem : List (Pos × Pos)) (p : Pos) (fuel : ℕ), MemOk g s mem →
      (p = s ∨ p ∈ memKeys mem) → mem.length ≤ fuel →
      (backtrack mem fuel p).head? = some p ∧
      (backtrack mem fuel p).getLast? = some s ∧
      (backtrack mem fuel p).Chain' (fun a b => navStep g b a) := by
  intro mem
  induction mem with
  | nil =>
    intro p fuel hok hp hf
    rcases hp with rfl | hp
    · rw [backtrack_nil]
      exact ⟨rfl, rfl, List.chain'_singleton _⟩
    · cases hp
  | cons e rest ih =>
    intro p fuel hok hp hf
    obtain ⟨p₁, q₁⟩ := e
    rcases hp with rfl | hp
    · rw [backtrack_start hok]
      exact ⟨rfl, rfl, List.chain'_singleton _⟩
    · rw [memKeys_cons] at hp
      have hp' : p ∈ p₁ :: memKeys rest := hp
      rcases List.mem_cons.mp hp' with heq | hp2
      · subst heq
        obtain ⟨f, rfl⟩ : ∃ f, fuel = f + 1 := by
          refine ⟨fuel - 1, ?_⟩
          have : 1 ≤ fuel := le_trans (by simp) hf
          omega
        obtain ⟨hnk, hne, hel, hadj, hpar, hrest⟩ := hok
        have hstep : backtrack ((p, q₁) :: rest) (f + 1) p =
            p :: backtrack ((p, q₁) :: rest) f q₁ := by
          rw [show backtrack ((p, q₁) :: rest) (f + 1) p =
              (match memLookup ((p, q₁) :: rest) p with
               | none => [p]
               | some q => p :: backtrack ((p, q₁) :: rest) f q) from rfl,
            memLookup_cons_self]
        have hskip : backtrack ((p, q₁) :: rest) f q₁ = backtrack rest f q₁ :=
          backtrack_skip ⟨hnk, hne, hel, hadj, hpar, hrest⟩ f q₁ hpar
        have hlen : rest.length ≤ f := by
          simp only [List.length_cons] at hf
          omega
        obtain ⟨ihh, ihl, ihc⟩ := ih q₁ f hrest hpar hlen
        rw [hstep, hskip]
        have hlne : backtrack rest f q₁ ≠ [] := by
          intro hc
          rw [hc] at ihh
          cases ihh
        refine ⟨rfl, ?_, ?_⟩
        · rcases hll : backtrack rest f q₁ with _ | ⟨y, t⟩
          · exact absurd hll hlne
          · rw [List.getLast?_cons_cons]
            rw [hll] at ihl
            exact ihl
        · rw [List.chain'_cons']
          refine ⟨?_, ihc⟩
          intro y hy
          rw [ihh] at hy
          have hyq : y = q₁ := by
            simpa [eq_comm] using hy
          subst hyq
          exact ⟨hadj, hel⟩
      · have hskip : backtrack ((p₁, q₁) :: rest) fuel p = backtrack rest fuel p :=
          backtrack_skip hok fuel p (Or.inr hp2)
        have hlen : rest.length ≤ fuel := by
          simp only [List.length_cons] at hf
          omega
        obtain ⟨_, _, _, _, _, hrest⟩ := hok
        rw [hskip]
        exact ih p fuel hrest (Or.inr hp2) hlen

theorem reconstruct_valid {g : Grid} {s goal : Pos} {mem : List (Pos × Pos)}
    (hok : MemOk g s mem) (hgoal : goal = s ∨ goal ∈ memKeys mem) :
    ValidPath g s goal (reconstructPath mem goal) := by
  obtain ⟨hh, hl, hc⟩ := backtrack_valid mem goal mem.length hok hgoal le_rfl
  unfold ValidPath reconstructPath
  refine ⟨?_, ?_, ?_⟩
  · rw [List.head?_reverse]
    exact hl
  · rw [List.getLast?_reverse]
    exact hh
  · rw [List.chain'_reverse]
    exact hc

theorem chain_reaches {g : Grid} : ∀ (l : List Pos) (a b : Pos),
    l.Chain' (navStep g) → l.head? = some a → l.getLast? = some b →
    Relation.ReflTransGen (navStep g) a b := by
  intro l
  induction l with
  | nil =>
    intro a b _ hh _
    cases hh
  | cons x t ih =>
    intro a b hc hh hl
    have hx : x = a := by simpa using hh
    subst hx
    cases t with
    | nil =>
      have hb : x = b := by simpa using hl
      subst hb
      exact Relation.ReflTransGen.refl
    | cons y t2 =>
      rw [List.chain'_cons] at hc
      refine Relation.ReflTransGen.head hc.1 (ih y b hc.2 rfl ?_)
      rw [← List.getLast?_cons_cons]
      exact hl

theorem validPath_reaches {g : Grid} {s e : Pos} {l : List Pos}
    (h : ValidPath g s e l) : Reaches g s e :=
  chain_reaches l s e h.2.2 h.1 h.2.1

/-! ### Claim C8 — pathfinding: the node-expansion invariants -/

theorem mem_neighborList {cur v : Pos} :
    v ∈ dirList.map (fun d => ((cur.1 + d.1, cur.2 + d.2) : Pos)) ↔ adj cur v := by
  rw [List.mem_map]
  unfold adj
  constructor
  · rintro ⟨d, hd, rfl⟩
    have : ((((cur.1 + d.1, cur.2 + d.2) : Pos).1 - cur.1,
        ((cur.1 + d.1, cur.2 + d.2) : Pos).2 - cur.2) : Pos) = d := by
      obtain ⟨d1, d2⟩ := d
      simp only [Prod.mk.injEq]
      omega
    rw [this]
    exact hd
  · intro hd
    refine ⟨(v.1 - cur.1, v.2 - cur.2), hd, ?_⟩
    obtain ⟨v1, v2⟩ := v
    simp only [Prod.mk.injEq]
    omega

theorem grid_get_mem {g : Grid} {p : Pos} {b : Bool} (h : Grid.get g p = some b) :
    p ∈ g.map Prod.fst := by
  unfold Grid.get at h
  rcases hf : List.find? (fun t => decide (t.1 = p)) g with _ | e
  · rw [hf] at h
    cases h
  · have he := List.mem_of_find?_eq_some hf
    have hp := List.find?_some hf
    simp only [decide_eq_true_eq] at hp
    rw [List.mem_map]
    exact ⟨e, he, hp⟩

theorem visit_unchanged_or_push (g : Grid) (s goal cur : Pos)
    (st : List GridNode × List (Pos × Pos)) (npos : Pos) :
    visitNeighbor g s goal cur st npos = st ∨
    (visitNeighbor g s goal cur st npos =
        (⟨npos, distanceSquared npos goal⟩ :: st.1, (npos, cur) :: st.2) ∧
      npos ≠ s ∧ npos ∉ memKeys st.2 ∧ eligibleTile g npos) := by
  unfold visitNeighbor
  by_cases h1 : npos = s
  · rw [if_pos h1]
    exact Or.inl rfl
  rw [if_neg h1]
  by_cases h2 : (memLookup st.2 npos).isSome
  · rw [if_pos h2]
    exact Or.inl rfl
  rw [if_neg h2]
  have hkey : npos ∉ memKeys st.2 := fun hc => h2 (memLookup_isSome.mpr hc)
  rcases hget : Grid.get g npos with _ | solid
  · exact Or.inl rfl
  · cases solid with
    | true => exact Or.inl rfl
    | false =>
      refine Or.inr ⟨rfl, h1, hkey, ?_⟩
      unfold eligibleTile
      exact hget

theorem measure_push (g : Grid) (open_ : List GridNode) (mem : List (Pos × Pos))
    (n : GridNode) (npos cur : Pos) (hgrid : npos ∈ g.map Prod.fst)
    (hkey : npos ∉ memKeys mem) :
    searchMeasure g (n :: open_) ((npos, cur) :: mem) + 4 ≤ searchMeasure g open_ mem := by
  unfold searchMeasure
  have hsub : ∀ a ∈ g.map Prod.fst,
      (decide (a ∉ memKeys ((npos, cur) :: mem))) =
        ((decide (a ∉ memKeys ((npos, cur) :: mem))) && (decide (a ∉ memKeys mem))) := by
    intro a _
    rcases h : decide (a ∉ memKeys ((npos, cur) :: mem)) with _ | _
    · simp
    · have ha : a ∉ memKeys ((npos, cur) :: mem) := of_decide_eq_true h
      have ha2 : a ∉ memKeys mem := by
        intro hc
        exact ha (by rw [memKeys_cons]; exact List.mem_cons_of_mem _ hc)
      simp [ha2]
  have hfact : (g.map Prod.fst).filter (fun p => decide (p ∉ memKeys ((npos, cur) :: mem))) =
      ((g.map Prod.fst).filter (fun p => decide (p ∉ memKeys mem))).filter
        (fun p => decide (p ∉ memKeys ((npos, cur) :: mem))) := by
    rw [List.filter_filter]
    exact List.filter_congr hsub
  have hlt : (((g.map Prod.fst).filter (fun p => decide (p ∉ memKeys mem))).filter
      (fun p => decide (p ∉ memKeys ((npos, cur) :: mem)))).length <
      ((g.map Prod.fst).filter (fun p => decide (p ∉ memKeys mem))).length := by
    rw [List.length_filter_lt_length_iff_exists]
    refine ⟨npos, ?_, ?_⟩
    · rw [List.mem_filter]
      exact ⟨hgrid, by simpa using hkey⟩
    · simp only [decide_eq_true_eq, not_not]
      rw [memKeys_cons]
      exact List.mem_cons_self _ _
  rw [hfact]
  simp only [List.length_cons]
  omega

theorem visit_pres (g : Grid) (s goal cur : Pos) (rest₀ : List GridNode)
    (mem₀ : List (Pos × Pos)) (st : List GridNode × List (Pos × Pos)) (npos : Pos)
    (hadj : adj cur npos) (hin : ExpandInv g s cur rest₀ mem₀ st) :
    ExpandInv g s cur rest₀ mem₀ (visitNeighbor g s goal cur st npos) := by
  rcases visit_unchanged_or_push g s goal cur st npos with heq | ⟨heq, hne, hkey, hel⟩
  · rw [heq]
    exact hin
  rw [heq]
  obtain ⟨hmem, hopen, hgrid, hmono, hrest, hnew, hmeas, hcur⟩ := hin
  have hingrid : npos ∈ g.map Prod.fst := grid_get_mem hel
  refine ⟨?_, ?_, ?_, ?_, ?_, ?_, ?_, ?_⟩
  · exact memOk_cons hmem hkey hne hel hadj hcur
  · intro n hn
    rcases List.mem_cons.mp hn with rfl | hn2
    · exact Or.inr (by rw [memKeys_cons]; exact List.mem_cons_self _ _)
    · rcases hopen n hn2 with h | h
      · exact Or.inl h
      · exact Or.inr (by rw [memKeys_cons]; exact List.mem_cons_of_mem _ h)
  · intro p hp
    rw [memKeys_cons] at hp
    rcases List.mem_cons.mp hp with rfl | hp2
    · exact hingrid
    · exact hgrid p hp2
  · intro p hp
    rw [memKeys_cons]
    exact List.mem_cons_of_mem _ (hmono p hp)
  · intro n hn
    exact List.mem_cons_of_mem _ (hrest n hn)
  · intro p hp
    rw [memKeys_cons] at hp
    rcases List.mem_cons.mp hp with rfl | hp2
    · exact Or.inr ⟨⟨p, distanceSquared p goal⟩, List.mem_cons_self _ _, rfl⟩
    · rcases hnew p hp2 with h | h
      · exact Or.inl h
      · obtain ⟨n, hn, hpos⟩ := h
        exact Or.inr ⟨n, List.mem_cons_of_mem _ hn, hpos⟩
  · show searchMeasure g (⟨npos, distanceSquared npos goal⟩ :: st.1) ((npos, cur) :: st.2) ≤
      searchMeasure g rest₀ mem₀
    have := measure_push g st.1 st.2 ⟨npos, distanceSquared npos goal⟩ npos cur hingrid hkey
    omega
  · rcases hcur with h | h
    · exact Or.inl h
    · exact Or.inr (by rw [memKeys_cons]; exact List.mem_cons_of_mem _ h)

theorem fold_visit_pres (g : Grid) (s goal cur : Pos) (rest₀ : List GridNode)
    (mem₀ : List (Pos × Pos)) :
    ∀ (l : List Pos), (∀ x ∈ l, adj cur x) →
      ∀ st, ExpandInv g s cur rest₀ mem₀ st →
        ExpandInv g s cur rest₀ mem₀ (l.foldl (visitNeighbor g s goal cur) st) := by
  intro l
  induction l with
  | nil => exact fun _ st h => h
  | cons x rest ih =>
    intro hl st hst
    exact ih (fun y hy => hl y (List.mem_cons_of_mem _ hy)) _
      (visit_pres g s goal cur rest₀ mem₀ st x (hl x (List.mem_cons_self _ _)) hst)

theorem visit_keys_mono (g : Grid) (s goal cur : Pos)
    (st : List GridNode × List (Pos × Pos)) (npos p : Pos)
    (hp : p ∈ memKeys st.2) : p ∈ memKeys (visitNeighbor g s goal cur st npos).2 := by
  rcases visit_unchanged_or_push g s goal cur st npos with heq | ⟨heq, _, _, _⟩
  · rw [heq]
    exact hp
  · rw [heq]
    rw [memKeys_cons]
    exact List.mem_cons_of_mem _ hp

theorem fold_visit_keys_mono (g : Grid) (s goal cur : Pos) :
    ∀ (l : List Pos) (st : List GridNode × List (Pos × Pos)) (p : Pos),
      p ∈ memKeys st.2 → p ∈ memKeys ((l.foldl (visitNeighbor g s goal cur) st)).2 := by
  intro l
  induction l with
  | nil => exact fun st p h => h
  | cons x rest ih =>
    intro st p hp
    exact ih _ p (visit_keys_mono g s goal cur st x p hp)

theorem visit_covers (g : Grid) (s goal cur : Pos)
    (st : List GridNode × List (Pos × Pos)) (npos : Pos)
    (hne : npos ≠ s) (hel : eligibleTile g npos) :
    npos ∈ memKeys (visitNeighbor g s goal cur st npos).2 := by
  unfold visitNeighbor
  rw [if_neg hne]
  by_cases h2 : (memLookup st.2 npos).isSome
  · rw [if_pos h2]
    exact memLookup_isSome.mp h2
  rw [if_neg h2]
  rw [show Grid.get g npos = some false from hel]
  show npos ∈ memKeys ((npos, cur) :: st.2)
  rw [memKeys_cons]
  exact List.mem_cons_self _ _

theorem fold_visit_covers (g : Grid) (s goal cur : Pos) :
    ∀ (l : List Pos) (st : List GridNode × List (Pos × Pos)) (v : Pos),
      v ∈ l → v ≠ s → eligibleTile g v →
      v ∈ memKeys ((l.foldl (visitNeighbor g s goal cur) st)).2 := by
  intro l
  induction l with
  | nil =>
    intro st v hv
    cases hv
  | cons x rest ih =>
    intro st v hv hne hel
    rcases List.mem_cons.mp hv with rfl | hv2
    · exact fold_visit_keys_mono g s goal cur rest _ v
        (visit_covers g s goal cur st v hne hel)
    · exact ih _ v hv2 hne hel

theorem expand_covers (g : Grid) (s goal cur : Pos) (open₀ : List GridNode)
    (mem₀ : List (Pos × Pos)) (v : Pos) (hadj : adj cur v) (hne : v ≠ s)
    (hel : eligibleTile g v) :
    v ∈ memKeys (expandNode g s goal cur open₀ mem₀).2 := by
  unfold expandNode
  exact fold_visit_covers g s goal cur _ _ v (mem_neighborList.mpr hadj) hne hel

theorem expand_expandInv (g : Grid) (s goal cur : Pos) (open₀ : List GridNode)
    (mem₀ : List (Pos × Pos)) (hin : ExpandInv g s cur open₀ mem₀ (open₀, mem₀)) :
    ExpandInv g s cur open₀ mem₀ (expandNode g s goal cur open₀ mem₀) := by
  unfold expandNode
  refine fold_visit_pres g s goal cur open₀ mem₀ _ ?_ _ hin
  intro x hx
  exact mem_neighborList.mp hx

/-! ### Claim C8 — pathfinding: the main loop -/

theorem closed_not_reaches {g : Grid} {s goal : Pos} {S : Pos → Prop}
    (hstart : S s) (hclosed : ∀ p, S p → ∀ v, navStep g p v → S v)
    (hgoal : ¬ S goal) : ¬ Reaches g s goal := by
  intro hr
  have hall : ∀ x, Reaches g s x → S x := by
    intro x hx
    induction hx with
    | refl => exact hstart
    | tail hab hbc ih => exact hclosed _ ih _ hbc
  exact hgoal (hall goal hr)

theorem findPathLoop_none (g : Grid) (s goal : Pos) (f : ℕ) (open_ : List GridNode)
    (mem : List (Pos × Pos)) (hpop : popMin open_ = none) :
    findPathLoop g s goal (f + 1) open_ mem = some (Except.error ()) := by
  simp only [findPathLoop]
  rw [hpop]

theorem findPathLoop_succ (g : Grid) (s goal : Pos) (f : ℕ) (open_ : List GridNode)
    (mem : List (Pos × Pos)) (cur : GridNode) (rest : List GridNode)
    (hpop : popMin open_ = some (cur, rest)) :
    findPathLoop g s goal (f + 1) open_ mem =
      if cur.pos = goal then some (Except.ok (reconstructPath mem cur.pos))
      else findPathLoop g s goal f (expandNode g s goal cur.pos rest mem).1
        (expandNode g s goal cur.pos rest mem).2 := by
  simp only [findPathLoop]
  rw [hpop]

theorem step_loopinv (g : Grid) (s goal : Pos) (open_ : List GridNode)
    (mem : List (Pos × Pos)) (cur : GridNode) (rest : List GridNode)
    (hinv : LoopInv g s goal open_ mem) (hpop : popMin open_ = some (cur, rest))
    (hg : cur.pos ≠ goal) :
    LoopInv g s goal (expandNode g s goal cur.pos rest mem).1
      (expandNode g s goal cur.pos rest mem).2 ∧
    searchMeasure g (expandNode g s goal cur.pos rest mem).1
      (expandNode g s goal cur.pos rest mem).2 + 1 ≤ searchMeasure g open_ mem := by
  obtain ⟨hmem, hopen, hfro, hgp, hgrid⟩ := hinv
  have hperm := popMin_perm hpop
  have hrestsub : ∀ n ∈ rest, n ∈ open_ :=
    fun n hn => hperm.symm.subset (List.mem_cons_of_mem _ hn)
  have hcurmem : cur ∈ open_ := hperm.symm.subset (List.mem_cons_self _ _)
  have hcur : cur.pos = s ∨ cur.pos ∈ memKeys mem := hopen cur hcurmem
  have hinit : ExpandInv g s cur.pos rest mem (rest, mem) := by
    refine ⟨hmem, ?_, hgrid, fun p hp => hp, fun n hn => hn, fun p hp => Or.inl hp, le_rfl, hcur⟩
    exact fun n hn => hopen n (hrestsub n hn)
  obtain ⟨hmem', hopen', hgrid', hmono', hrest', hnew', hmeas', hcur'⟩ :=
    expand_expandInv g s goal cur.pos rest mem hinit
  constructor
  · refine ⟨hmem', hopen', ?_, ?_, hgrid'⟩
    · intro p hp
      by_cases hpc : p = cur.pos
      · subst hpc
        right
        intro v hv
        by_cases hvs : v = s
        · exact Or.inl hvs
        · exact Or.inr (expand_covers g s goal cur.pos rest mem v hv.1 hvs hv.2)
      · by_cases hold : p = s ∨ p ∈ memKeys mem
        · rcases hfro p hold with ⟨n, hn, hpos⟩ | hclosed
          · left
            have hn2 : n ∈ cur :: rest := hperm.subset hn
            rcases List.mem_cons.mp hn2 with rfl | hn3
            · exact absurd hpos.symm hpc
            · exact ⟨n, hrest' n hn3, hpos⟩
          · right
            intro v hv
            rcases hclosed v hv with h | h
            · exact Or.inl h
            · exact Or.inr (hmono' v h)
        · have hp2 : p ∈ memKeys (expandNode g s goal cur.pos rest mem).2 := by
            rcases hp with h | h
            · exact absurd (Or.inl h) hold
            · exact h
          rcases hnew' p hp2 with h | h
          · exact absurd (Or.inr h) hold
          · exact Or.inl h
    · intro hgoal
      by_cases hold : goal = s ∨ goal ∈ memKeys mem
      · obtain ⟨n, hn, hpos⟩ := hgp hold
        have hn2 : n ∈ cur :: rest := hperm.subset hn
        rcases List.mem_cons.mp hn2 with rfl | hn3
        · exact absurd hpos hg
        · exact ⟨n, hrest' n hn3, hpos⟩
      · have hp2 : goal ∈ memKeys (expandNode g s goal cur.pos rest mem).2 := by
          rcases hgoal with h | h
          · exact absurd (Or.inl h) hold
          · exact h
        rcases hnew' goal hp2 with h | h
        · exact absurd (Or.inr h) hold
        · exact h
  · have hlen : open_.length = rest.length + 1 := by
      have := hperm.length_eq
      simpa using this
    unfold searchMeasure at hmeas' ⊢
    omega

theorem findPathLoop_spec (g : Grid) (s goal : Pos) :
    ∀ (fuel : ℕ) (open_ : List GridNode) (mem : List (Pos × Pos)),
      LoopInv g s goal open_ mem → searchMeasure g open_ mem < fuel →
      ∃ r, findPathLoop g s goal fuel open_ mem = some r ∧
        (∀ p, r = Except.ok p → ValidPath g s goal p) ∧
        (r = Except.error () → ¬ Reaches g s goal) := by
  intro fuel
  induction fuel with
  | zero =>
    intro open_ mem _ hm
    exact absurd hm (by omega)
  | succ f ih =>
    intro open_ mem hinv hm
    rcases hpop : popMin open_ with _ | ⟨cur, rest⟩
    · have hempty : open_ = [] := popMin_eq_none.mp hpop
      obtain ⟨hmem, hopen, hfro, hgp, hgrid⟩ := hinv
      refine ⟨Except.error (), findPathLoop_none g s goal f open_ mem hpop, ?_, ?_⟩
      · intro p hp
        simp at hp
      · intro _
        refine closed_not_reaches (S := fun p => p = s ∨ p ∈ memKeys mem) (Or.inl rfl) ?_ ?_
        · intro p hp v hv
          rcases hfro p hp with ⟨n, hn, _⟩ | hcl
          · rw [hempty] at hn
            cases hn
          · exact hcl v hv
        · intro hS
          obtain ⟨n, hn, _⟩ := hgp hS
          rw [hempty] at hn
          cases hn
    · have hperm := popMin_perm hpop
      by_cases hgcur : cur.pos = goal
      · have hcurmem : cur ∈ open_ := hperm.symm.subset (List.mem_cons_self _ _)
        have hcur : cur.pos = s ∨ cur.pos ∈ memKeys mem := hinv.2.1 cur hcurmem
        refine ⟨Except.ok (reconstructPath mem cur.pos), ?_, ?_, ?_⟩
        · rw [findPathLoop_succ g s goal f open_ mem cur rest hpop, if_pos hgcur]
        · intro p hp
          have hpp : p = reconstructPath mem cur.pos := by
            cases hp
            rfl
          subst hpp
          have hvalid := reconstruct_valid hinv.1 (hgcur ▸ hcur)
          rw [hgcur]
          exact hvalid
        · intro hc
          simp at hc
      · obtain ⟨hinv', hdec⟩ := step_loopinv g s goal open_ mem cur rest hinv hpop hgcur
        have hm' : searchMeasure g (expandNode g s goal cur.pos rest mem).1
            (expandNode g s goal cur.pos rest mem).2 < f := by
          omega
        obtain ⟨r, heq, hok, herr⟩ := ih _ _ hinv' hm'
        refine ⟨r, ?_, hok, herr⟩
        rw [findPathLoop_succ g s goal f open_ mem cur rest hpop, if_neg hgcur]
        exact heq

theorem findPath_spec (g : Grid) (s goal : Pos) :
    ∃ r, findPath g s goal = some r ∧
      (∀ p, r = Except.ok p → ValidPath g s goal p) ∧
      (r = Except.error () → ¬ Reaches g s goal) := by
  have hinv : LoopInv g s goal [⟨s, distanceSquared s goal⟩] [] := by
    refine ⟨trivial, ?_, ?_, ?_, ?_⟩
    · intro n hn
      rcases List.mem_cons.mp hn with rfl | h
      · exact Or.inl rfl
      · cases h
    · intro p hp
      rcases hp with rfl | hp
      · exact Or.inl ⟨⟨p, distanceSquared p goal⟩, List.mem_cons_self _ _, rfl⟩
      · cases hp
    · intro hg
      rcases hg with hgs | hg
      · exact ⟨⟨s, distanceSquared s goal⟩, List.mem_cons_self _ _, hgs.symm⟩
      · cases hg
    · intro p hp
      cases hp
  have hmeas : searchMeasure g [⟨s, distanceSquared s goal⟩] [] < fuelFor g := by
    unfold searchMeasure fuelFor
    have hlen : ((g.map Prod.fst).filter
        (fun p => decide (p ∉ memKeys ([] : List (Pos × Pos))))).length = g.length := by
      have hall : ∀ x ∈ g.map Prod.fst,
          decide (x ∉ memKeys ([] : List (Pos × Pos))) = true := by
        intro x _
        simp [memKeys]
      rw [List.filter_eq_self.mpr hall, List.length_map]
    rw [hlen]
    simp
  obtain ⟨r, heq, h1, h2⟩ := findPathLoop_spec g s goal (fuelFor g) _ _ hinv hmeas
  exact ⟨r, heq, h1, h2⟩

/-- Claim C8, counterexample: with the destination tile marked solid,
`find_path` returns `NoPathError` and `compute_navigation` keeps the stored
path — but it does not leave the `CalculatedPath` component unchanged: the
waypoint queue (here already fully consumed by steering) is rebuilt from
the retained path plus the current nav target. -/
theorem c8_counterexample :
    findPath W8g (0, 0) (1, 0) = some (Except.error ()) ∧
    (computeNavigationEntity W8g (fun p => ((p.1 : ℚ), 0, (p.2 : ℚ))) (5, 0, 5) true (0, 0) (1, 0)
        ⟨[(0, 0)], []⟩).path = [(0, 0)] ∧
    (computeNavigationEntity W8g (fun p => ((p.1 : ℚ), 0, (p.2 : ℚ))) (5, 0, 5) true (0, 0) (1, 0)
        ⟨[(0, 0)], []⟩).waypoints = [(0, 0, 0), (5, 0, 5)] ∧
    computeNavigationEntity W8g (fun p => ((p.1 : ℚ), 0, (p.2 : ℚ))) (5, 0, 5) true (0, 0) (1, 0)
        ⟨[(0, 0)], []⟩ ≠ ⟨[(0, 0)], []⟩ := by
  have hfp : findPath W8g (0, 0) (1, 0) = some (Except.error ()) := rfl
  have hcn : computeNavigationEntity W8g (fun p => ((p.1 : ℚ), 0, (p.2 : ℚ))) (5, 0, 5) true
      (0, 0) (1, 0) ⟨[(0, 0)], []⟩ =
      ⟨[(0, 0)], [((0 : ℚ), (0 : ℚ), (0 : ℚ)), ((5 : ℚ), (0 : ℚ), (5 : ℚ))]⟩ := by
    unfold computeNavigationEntity
    rw [if_neg (by simp), hfp]
    norm_num
  refine ⟨hfp, by rw [hcn], by rw [hcn], ?_⟩
  rw [hcn]
  intro hc
  have := congrArg CalculatedPath.waypoints hc
  simp at this

/-- Claim C8, amended: `Pathfinder::find_path` always terminates on a
finite grid (the explicit fuel is never exhausted), returns
`Err(NoPathError)` exactly when no sequence of 4-adjacent steps through
non-solid grid tiles connects start to end, and returns `Ok` with such a
path otherwise; when `compute_navigation` receives the error it keeps the
stored path field (the last known-good path) but rebuilds the waypoint
queue from that retained path plus the current nav target (so the
`CalculatedPath` component as a whole is not left unchanged — see the
counterexample). -/
theorem c8_pathfinding_amended (g : Grid) (s e : Pos) :
    (∃ r, findPath g s e = some r) ∧
    (findPath g s e = some (Except.error ()) ↔ ¬ Reaches g s e) ∧
    (∀ p, findPath g s e = some (Except.ok p) → ValidPath g s e p) ∧
    (∀ (tf : Pos → ℚ × ℚ × ℚ) (navTarget : ℚ × ℚ × ℚ) (startC targetC : Pos)
        (cp : CalculatedPath), findPath g startC targetC = some (Except.error ()) →
      (computeNavigationEntity g tf navTarget true startC targetC cp).path = cp.path ∧
      (computeNavigationEntity g tf navTarget true startC targetC cp).waypoints =
        cp.path.map tf ++ [navTarget]) := by
  obtain ⟨r, heq, hok, herr⟩ := findPath_spec g s e
  refine ⟨⟨r, heq⟩, ⟨?_, ?_⟩, ?_, ?_⟩
  · intro h
    rw [heq] at h
    exact herr (Option.some_inj.mp h)
  · intro hnr
    cases r with
    | ok p =>
      exact absurd (validPath_reaches (hok p rfl)) hnr
    | error u =>
      cases u
      exact heq
  · intro p hp
    rw [heq] at hp
    exact hok p (Option.some_inj.mp hp)
  · intro tf nt sc tc cp herrc
    unfold computeNavigationEntity
    rw [if_neg (by simp), herrc]
    exact ⟨rfl, rfl⟩

theorem c8_pathfinding_amended_witness :
    (∃ r, findPath W8g (0, 0) (1, 0) = some r) ∧
    (findPath W8g (0, 0) (1, 0) = some (Except.error ()) ↔ ¬ Reaches W8g (0, 0) (1, 0)) ∧
    (∀ p, findPath W8g (0, 0) (1, 0) = some (Except.ok p) → ValidPath W8g (0, 0) (1, 0) p) ∧
    (∀ (tf : Pos → ℚ × ℚ × ℚ) (navTarget : ℚ × ℚ × ℚ) (startC targetC : Pos)
        (cp : CalculatedPath), findPath W8g startC targetC = some (Except.error ()) →
      (computeNavigationEntity W8g tf navTarget true startC targetC cp).path = cp.path ∧
      (computeNavigationEntity W8g tf navTarget true startC targetC cp).waypoints =
        cp.path.map tf ++ [navTarget]) :=
  c8_pathfinding_amended W8g (0, 0) (1, 0)

end Spcc
